import Mathlib

/-!
Verification of the Wumpus-World reasoning core: a shallow embedding of
`knowledgeBase.py` (class `PropositionalKB`) and `inferenceEngine.py`
(class `InferenceEngine`), together with proofs and refutations of the
specified properties.

Modelling conventions:
* Python's unbounded integers are `Int`; grid positions are `Int × Int`.
* The fact set (a Python `set` of strings of the shape `Pred(x,y)`) is an
  insertion-ordered duplicate-free `List Fact` over an inductive `Fact`
  type keyed by predicate tag and position; membership-based insertion
  reproduces set semantics exactly (the program only ever queries
  membership of the fact set).
* The confidence store (a dict `(x,y) -> {'pit': c, 'wumpus': c}`) is a
  total function defaulting to `0`; `get_confidence` returns `0.0` both
  for a missing position and for a missing threat key, so the total
  function is observationally identical through the accessors the
  program uses.
* The confidence values `0.0, 0.2, 0.5, 1.0` are only ever stored as
  literals and compared for equality/order (no float arithmetic feeds
  back into state), so they are represented exactly as rationals.
* The playing grid (a `gridSize × gridSize` list of lists indexed
  `[y][x]`) is a total function `Pos → String`; the in-place double loop
  of `update_playing_grid_from_kb` has no cell-to-cell interference, so
  it is modelled as a pointwise rewrite of the in-bounds cells.
* `while` loops / BFS are modelled with explicit fuel chosen large
  enough that it is never exhausted (justified where used).
* Python code that raises is modelled in `Except PyErr`; in particular
  `InferenceEngine._select_best_exploration_cell` calls a method
  `_calculate_exploration_score` that is never defined on the class (its
  intended body sits as unreachable code after the `return` of
  `_select_best_backtrack_cell`), so that call raises `AttributeError`.
* `random.choice` is modelled by an explicit selection function `pick`
  passed as a parameter; theorems that depend on it only assume that it
  picks an element of a nonempty list.
-/

namespace WumpusWorld

set_option maxRecDepth 100000

abbrev Pos := Int × Int

/-- The two threat kinds tracked by the confidence store
(`'pit'` and `'wumpus'` dictionary keys in the source). -/
inductive Threat where
  | pit
  | wumpus
deriving DecidableEq, Repr

/-- Atomic facts of the knowledge base: the source stores strings
`"NoBreeze(x,y)"`, `"Visited(x,y)"`, ... keyed by predicate name and
position; this inductive type is that keying, made explicit. -/
inductive Fact where
  | noBreeze (p : Pos)
  | noStench (p : Pos)
  | breeze (p : Pos)
  | stench (p : Pos)
  | safe (p : Pos)
  | glitter (p : Pos)
  | gold (p : Pos)
  | visited (p : Pos)
  | noPit (p : Pos)
  | noWumpus (p : Pos)
  | definitePit (p : Pos)
  | definiteWumpus (p : Pos)
  | possiblePit (p : Pos)
  | possibleWumpus (p : Pos)
deriving DecidableEq, Repr

/-- Rule premises: either an atomic fact, or a recursively evaluable
`('AND', ...)` / `('OR', ...)` tuple, as in `PropositionalKB.can_infer`. -/
inductive Premise where
  | atom (f : Fact)
  | conj (ps : List Premise)
  | disj (ps : List Premise)
deriving Repr

/-- The `DefinitePit`/`DefiniteWumpus` fact for a threat kind. -/
def Threat.definiteFact : Threat → Pos → Fact
  | .pit, q => .definitePit q
  | .wumpus, q => .definiteWumpus q

/-- The `PossiblePit`/`PossibleWumpus` fact for a threat kind. -/
def Threat.possibleFact : Threat → Pos → Fact
  | .pit, q => .possiblePit q
  | .wumpus, q => .possibleWumpus q

/-- Exceptions the embedded engine code can raise.  The only one
reachable in the modelled fragment is the `AttributeError` from the
missing `_calculate_exploration_score` method. -/
inductive PyErr where
  | attributeError
deriving DecidableEq, Repr

/-- `PropositionalKB.__init__`: state of the knowledge base. -/
structure PropositionalKB where
  grid_size : Int
  facts : List Fact
  rules : List (Premise × Fact)
  playing_grid : Pos → String
  gold_cell : Option Pos
  cell_confidence : Pos → Threat → Rat

namespace PropositionalKB

/-- `PropositionalKB.__init__(grid_size)`: empty facts and rules, all-`"0"`
playing grid except `"1"` at `(0,0)`, no gold cell, empty confidence dict
(reads default to `0.0`). -/
def init (grid_size : Int) : PropositionalKB where
  grid_size := grid_size
  facts := []
  rules := []
  playing_grid := fun p => if p = ((0 : Int), (0 : Int)) then "1" else "0"
  gold_cell := none
  cell_confidence := fun _ _ => 0

/-- `PropositionalKB.add_fact`: idempotent set insertion. -/
def add_fact (kb : PropositionalKB) (fact : Fact) : PropositionalKB :=
  if fact ∈ kb.facts then kb else { kb with facts := kb.facts ++ [fact] }

/-- `PropositionalKB.add_rule`. -/
def add_rule (kb : PropositionalKB) (premise : Premise) (conclusion : Fact) :
    PropositionalKB :=
  { kb with rules := kb.rules ++ [(premise, conclusion)] }

/-- `PropositionalKB.query`: membership in the fact set. -/
def query (kb : PropositionalKB) (fact : Fact) : Bool :=
  decide (fact ∈ kb.facts)

/-- `PropositionalKB.get_confidence`: missing position or threat key
defaults to `0.0`. -/
def get_confidence (kb : PropositionalKB) (position : Pos) (threat_type : Threat) : Rat :=
  kb.cell_confidence position threat_type

/-- `PropositionalKB.set_confidence`: pointwise write.  In the source a
missing position is first initialised to `{'pit': 0.0, 'wumpus': 0.0}`,
which coincides with the total-function default, so presence of a key is
unobservable through `get_confidence`. -/
def set_confidence (kb : PropositionalKB) (position : Pos) (threat_type : Threat)
    (confidence : Rat) : PropositionalKB :=
  { kb with cell_confidence := fun q s =>
      if q = position ∧ s = threat_type then confidence else kb.cell_confidence q s }

mutual
/-- `PropositionalKB.can_infer`: recursive premise evaluation. -/
def canInfer (facts : List Fact) : Premise → Bool
  | .atom f => decide (f ∈ facts)
  | .conj ps => canInferAll facts ps
  | .disj ps => canInferAny facts ps

/-- `all(...)` over the sub-premises of an `AND` premise. -/
def canInferAll (facts : List Fact) : List Premise → Bool
  | [] => true
  | p :: ps => canInfer facts p && canInferAll facts ps

/-- `any(...)` over the sub-premises of an `OR` premise. -/
def canInferAny (facts : List Fact) : List Premise → Bool
  | [] => false
  | p :: ps => canInfer facts p || canInferAny facts ps
end

/-- The body of the `for premise, conclusion in self.rules` loop of
`forward_chain`: fire the rule if its premise holds and its conclusion
is new, and raise the `changed` flag. -/
def forward_step (st : List Fact × Bool) (r : Premise × Fact) : List Fact × Bool :=
  if canInfer st.1 r.1 ∧ r.2 ∉ st.1 then (st.1 ++ [r.2], true) else st

/-- One pass of the rule loop of `forward_chain`, threading the fact
list and the `changed` flag. -/
def forward_pass (rules : List (Premise × Fact)) (facts : List Fact) :
    List Fact × Bool :=
  rules.foldl forward_step (facts, false)

/-- The `while changed` loop of `forward_chain`, with explicit fuel.  A
pass that reports a change strictly increases the number of distinct
rule conclusions present in the fact list, so `rules.length + 1` passes
always reach the fixpoint and the fuel is never exhausted (proved in
`forward_pass_of_forward_chain` below). -/
def forward_chain_aux (rules : List (Premise × Fact)) :
    Nat → List Fact → List Fact
  | 0, facts => facts
  | fuel + 1, facts =>
      let step := forward_pass rules facts
      if step.2 then forward_chain_aux rules fuel step.1 else facts

/-- `PropositionalKB.forward_chain`. -/
def forward_chain (kb : PropositionalKB) : PropositionalKB :=
  { kb with facts := forward_chain_aux kb.rules (kb.rules.length + 1) kb.facts }

/-- `PropositionalKB._get_adjacent_cells`: the in-bounds orthogonal
neighbours, in the fixed source order `(0,1),(0,-1),(1,0),(-1,0)`. -/
def get_adjacent_cells (grid_size : Int) (position : Pos) : List Pos :=
  [((0 : Int), (1 : Int)), (0, -1), (1, 0), (-1, 0)].filterMap fun d =>
    let q : Pos := (position.1 + d.1, position.2 + d.2)
    if 0 ≤ q.1 ∧ q.1 < grid_size ∧ 0 ≤ q.2 ∧ q.2 < grid_size then some q else none

/-- The rules registered for one cell by `add_wumpus_rules` (the source
guards the third group with `if adj_cells:`, which is redundant since a
map over an empty list is empty). -/
def wumpusRulesAt (grid_size : Int) (p : Pos) : List (Premise × Fact) :=
  let adj := get_adjacent_cells grid_size p
  (adj.map fun q => (Premise.atom (.noBreeze p), Fact.noPit q))
    ++ (adj.map fun q => (Premise.atom (.noStench p), Fact.noWumpus q))
    ++ (adj.map fun q =>
          (Premise.conj [.atom (.noPit q), .atom (.noWumpus q)], Fact.safe q))

/-- Integer range `0, 1, ..., n-1` for the `for y in range(...)` loops. -/
def intRange (n : Int) : List Int :=
  (List.range n.toNat).map Int.ofNat

/-- `PropositionalKB.add_wumpus_rules`: appends the domain rules for every
cell, iterating `y` then `x`. -/
def add_wumpus_rules (kb : PropositionalKB) : PropositionalKB :=
  { kb with rules := kb.rules ++
      (intRange kb.grid_size).flatMap fun y =>
        (intRange kb.grid_size).flatMap fun x => wumpusRulesAt kb.grid_size (x, y) }

/-- Write one cell of the playing grid (`self.playing_grid[y][x] = v`). -/
def gridWrite (g : Pos → String) (p : Pos) (v : String) : Pos → String :=
  fun q => if q = p then v else g q

/-- `PropositionalKB._mark_adjacent_safe`. -/
def mark_adjacent_safe (kb : PropositionalKB) (position : Pos) : PropositionalKB :=
  (get_adjacent_cells kb.grid_size position).foldl
    (fun k q => ((k.add_fact (.safe q)).set_confidence q .pit 0).set_confidence q .wumpus 0)
    kb

/-- Common body of `PropositionalKB._process_breeze` (`t = pit`) and
`PropositionalKB._process_stench` (`t = wumpus`); the two source methods
are textually identical up to the threat kind and fact names. -/
def process_signal (kb : PropositionalKB) (t : Threat) (position : Pos) :
    PropositionalKB :=
  let adj := get_adjacent_cells kb.grid_size position
  let unvisited_cells := adj.filter fun q => !(kb.query (.visited q))
  let definite := adj.filter fun q => kb.get_confidence q t = 1
  if !definite.isEmpty then
    unvisited_cells.foldl
      (fun k q =>
        if q ∉ definite then
          (if 0 < k.get_confidence q t then k.set_confidence q t (mkRat 1 5) else k)
        else k)
      kb
  else
    let possible := adj.filter fun q => kb.get_confidence q t = mkRat 1 2
    if possible.length = 1 then
      let q := possible.headD ((0 : Int), (0 : Int))
      (kb.set_confidence q t 1).add_fact (t.definiteFact q)
    else if unvisited_cells.length = 1 then
      let q := unvisited_cells.headD ((0 : Int), (0 : Int))
      (kb.set_confidence q t 1).add_fact (t.definiteFact q)
    else
      unvisited_cells.foldl
        (fun k q =>
          if !(k.query (.safe q)) then
            (k.set_confidence q t (mkRat 1 2)).add_fact (t.possibleFact q)
          else k)
        kb

/-- `PropositionalKB._process_breeze`. -/
def process_breeze (kb : PropositionalKB) (position : Pos) : PropositionalKB :=
  process_signal kb .pit position

/-- `PropositionalKB._process_stench`. -/
def process_stench (kb : PropositionalKB) (position : Pos) : PropositionalKB :=
  process_signal kb .wumpus position

/-- `PropositionalKB._process_breeze_and_stench`. -/
def process_breeze_and_stench (kb : PropositionalKB) (position : Pos) :
    PropositionalKB :=
  let adj := get_adjacent_cells kb.grid_size position
  let unvisited_cells := adj.filter fun q => !(kb.query (.visited q))
  let definite_pits := adj.filter fun q => kb.get_confidence q .pit = 1
  let definite_wumpus := adj.filter fun q => kb.get_confidence q .wumpus = 1
  if !definite_pits.isEmpty then
    unvisited_cells.foldl
      (fun k q =>
        if q ∉ definite_pits then
          (k.set_confidence q .wumpus (mkRat 1 2)).add_fact (.possibleWumpus q)
        else k)
      kb
  else if !definite_wumpus.isEmpty then
    unvisited_cells.foldl
      (fun k q =>
        if q ∉ definite_wumpus then
          (k.set_confidence q .pit (mkRat 1 2)).add_fact (.possiblePit q)
        else k)
      kb
  else
    unvisited_cells.foldl
      (fun k q =>
        if !(k.query (.safe q)) then
          ((((k.set_confidence q .pit (mkRat 1 2)).set_confidence q .wumpus (mkRat 1 2)).add_fact
              (.possiblePit q)).add_fact (.possibleWumpus q))
        else k)
      kb

/-- The percept-classification prelude of `update_knowledge_base`: empty
percepts give `'-'`, any `"Glitter"` gives `'G'` (danger signals in the
same list are ignored), both danger signals give `'T'`, a single one
gives `'B'` or `'S'`, anything else gives `'-'`. -/
def classify_percepts (percepts : List String) : Char :=
  if percepts = [] ∨ "Glitter" ∈ percepts then
    (if percepts = [] then '-' else 'G')
  else if "Breeze" ∈ percepts ∧ "Stench" ∈ percepts then 'T'
  else if "Breeze" ∈ percepts then 'B'
  else if "Stench" ∈ percepts then 'S'
  else '-'

/-- The cascade body of `update_playing_grid_from_kb` for one cell; the
source's `if/elif` chain has no `else`, so a cell matching no case keeps
its previous value (`none` here). -/
def cell_status (kb : PropositionalKB) (p : Pos) : Option String :=
  if kb.query (.visited p) then some "1"
  else if kb.query (.safe p) then some "0"
  else if kb.get_confidence p .pit = 1 then some "-4"
  else if kb.get_confidence p .wumpus = 1 then some "-3"
  else if kb.get_confidence p .pit = mkRat 1 2 ∧ kb.get_confidence p .wumpus = mkRat 1 2 then some "-5"
  else if kb.get_confidence p .pit = mkRat 1 2 then some "-2"
  else if kb.get_confidence p .wumpus = mkRat 1 2 then some "-1"
  else if kb.get_confidence p .pit = mkRat 1 5 ∨ kb.get_confidence p .wumpus = mkRat 1 5 then some "-6"
  else none

/-- `PropositionalKB.update_playing_grid_from_kb`: the double loop writes
each in-bounds cell from facts and confidences only (no cell reads
another grid cell), so it is a pointwise rewrite. -/
def update_playing_grid_from_kb (kb : PropositionalKB) : PropositionalKB :=
  { kb with playing_grid := fun p =>
      if 0 ≤ p.1 ∧ p.1 < kb.grid_size ∧ 0 ≤ p.2 ∧ p.2 < kb.grid_size then
        (cell_status kb p).getD (kb.playing_grid p)
      else kb.playing_grid p }

/-- The `if percept == ... / elif ...` dispatch of
`update_knowledge_base` (named so that proofs can reason about the
update compositionally); the chain has no final `else`, so an
unclassified character leaves the store untouched. -/
def update_dispatch (kb : PropositionalKB) (position : Pos) (percept : Char) :
    PropositionalKB :=
  if percept = '-' then
    mark_adjacent_safe
      (((kb.add_fact (.noBreeze position)).add_fact (.noStench position)).add_fact
        (.safe position)) position
  else if percept = 'B' then
    process_breeze ((kb.add_fact (.breeze position)).add_fact (.noStench position))
      position
  else if percept = 'S' then
    process_stench ((kb.add_fact (.stench position)).add_fact (.noBreeze position))
      position
  else if percept = 'T' then
    process_breeze_and_stench
      ((kb.add_fact (.breeze position)).add_fact (.stench position)) position
  else if percept = 'G' then
    let k := (kb.add_fact (.glitter position)).add_fact (.gold position)
    { k with gold_cell := some position,
             playing_grid := gridWrite k.playing_grid position "99" }
  else kb

/-- `PropositionalKB.update_knowledge_base`: classify the percepts,
dispatch to the case handler, then record `Visited`, write the visited
grid marker, forward chain and recompute the playing grid. -/
def update_knowledge_base (kb : PropositionalKB) (position : Pos)
    (percepts : List String) : PropositionalKB :=
  let kb1 := update_dispatch kb position (classify_percepts percepts)
  let kb2 := kb1.add_fact (.visited position)
  let kb3 := { kb2 with playing_grid := gridWrite kb2.playing_grid position "1" }
  let kb4 := kb3.forward_chain
  kb4.update_playing_grid_from_kb

/-- `PropositionalKB.set_gold_found`. -/
def set_gold_found (kb : PropositionalKB) (position : Pos) : PropositionalKB :=
  { kb.add_fact (.gold position) with
      playing_grid := gridWrite kb.playing_grid position "99",
      gold_cell := some position }

/-- `PropositionalKB.has_gold_location`. -/
def has_gold_location (kb : PropositionalKB) : Bool :=
  kb.gold_cell.isSome

end PropositionalKB

/-- The per-episode knowledge base as built by `GameState.reset` in
`main.py`: fresh store, facts `Safe(0,0)` and `Visited(0,0)`, and the
full wumpus rule set. -/
def resetKB (grid_size : Int) : PropositionalKB :=
  (((PropositionalKB.init grid_size).add_fact (.safe (0, 0))).add_fact
      (.visited (0, 0))).add_wumpus_rules

namespace InferenceEngine

open PropositionalKB

/-- Truncation toward zero, the semantics of Python's `int()` on a
rational value. -/
def pyInt (q : Rat) : Int :=
  if q < 0 then q.ceil else q.floor

/-- `InferenceEngine._calculate_safety_score`.  The scores are the integer
literals of the source (the final branch also produces an integer). -/
def calculate_safety_score (kb : PropositionalKB) (position : Pos) : Int :=
  if ¬(0 ≤ position.1 ∧ position.1 < kb.grid_size ∧
        0 ≤ position.2 ∧ position.2 < kb.grid_size) then
    -1000
  else
    let pit_conf := kb.get_confidence position .pit
    let wumpus_conf := kb.get_confidence position .wumpus
    let max_threat := max pit_conf wumpus_conf
    if max_threat = 0 then
      (if kb.query (.visited position) then 800 else 1000)
    else if max_threat = mkRat 1 5 then
      (if kb.query (.visited position) then 180 else 200)
    else if max_threat = mkRat 1 2 then
      (if kb.query (.visited position) then 30 else 50)
    else if max_threat = 1 then
      (if kb.query (.visited position) then -10 else 0)
    else
      max 0 (100 - pyInt (max_threat * 100))

/-- `InferenceEngine._would_create_loop`, over the engine's
`move_history` list.  Negative Python indices `history[-k]` are the
elements at `length - k`; they are only consulted under the
`len(...) >= 6` guard, which makes the indices valid. -/
def would_create_loop (move_history : List Pos) (position : Pos) : Bool :=
  if move_history.length < 4 then false
  else if 2 ≤ (move_history.drop (move_history.length - 4)).count position then true
  else if 6 ≤ move_history.length ∧
      move_history.getD (move_history.length - 2) (0, 0) = position ∧
      move_history.getD (move_history.length - 4) (0, 0) = position ∧
      move_history.getD (move_history.length - 6) (0, 0) = position then true
  else false

/-- The attribute access `self._calculate_exploration_score` raises
`AttributeError`: no method of that name is defined on
`InferenceEngine` — the code intended as its body is unreachable,
sitting after the `return` statement of `_select_best_backtrack_cell`
(lines 262-285 of `inferenceEngine.py`) with no `def` line of its own. -/
def calculate_exploration_score (_cell : Pos) : Except PyErr Int :=
  .error .attributeError

/-- `InferenceEngine._select_best_exploration_cell`.  With two or more
candidates the loop's first call to `_calculate_exploration_score`
raises, which the `Except` bind propagates. -/
def select_best_exploration_cell : List Pos → Except PyErr (Option Pos)
  | [] => .ok none
  | [c] => .ok (some c)
  | a :: b :: rest => do
      let best ← (a :: b :: rest).foldlM
        (fun (acc : Option Pos × Int) cell => do
          let score ← calculate_exploration_score cell
          if acc.2 < score then pure (some cell, score) else pure acc)
        ((none : Option Pos), (-1 : Int))
      match best.1 with
      | some c => pure (some c)
      | none => pure (a :: b :: rest).head?

/-- The BFS loop of `InferenceEngine._distance_to_nearest_unvisited`:
FIFO queue of `(cell, dist)`, a `visited` membership set, distance `⊤`
playing the role of `float('inf')`.  Each enqueue adds a fresh in-bounds
cell to `seen`, so the number of loop iterations is bounded by
`grid_size² + 1` and the fuel below is never exhausted. -/
def bfs_distance (kb : PropositionalKB) :
    Nat → List (Pos × Nat) → List Pos → WithTop Nat
  | 0, _, _ => ⊤
  | _ + 1, [], _ => ⊤
  | fuel + 1, (p, d) :: queue, seen =>
      if kb.query (.visited p) = false then (d : WithTop Nat)
      else
        let next := [((0 : Int), (1 : Int)), (0, -1), (1, 0), (-1, 0)].filterMap fun dir =>
          let q : Pos := (p.1 + dir.1, p.2 + dir.2)
          if (0 ≤ q.1 ∧ q.1 < kb.grid_size ∧ 0 ≤ q.2 ∧ q.2 < kb.grid_size) ∧ q ∉ seen
          then some q else none
        bfs_distance kb fuel (queue ++ next.map fun q => (q, d + 1)) (seen ++ next)

/-- `InferenceEngine._distance_to_nearest_unvisited`. -/
def distance_to_nearest_unvisited (kb : PropositionalKB) (position : Pos) :
    WithTop Nat :=
  bfs_distance kb (kb.grid_size.toNat * kb.grid_size.toNat + 2) [(position, 0)] [position]

/-- `InferenceEngine._select_best_backtrack_cell` (the `position`
parameter of the source is unused by the live code). -/
def select_best_backtrack_cell (kb : PropositionalKB) : List Pos → Option Pos
  | [] => none
  | [c] => some c
  | a :: b :: rest =>
      let best := (a :: b :: rest).foldl
        (fun (acc : Option Pos × WithTop Nat) cell =>
          let dist := distance_to_nearest_unvisited kb cell
          if dist < acc.2 then (some cell, dist) else acc)
        ((none : Option Pos), (⊤ : WithTop Nat))
      match best.1 with
      | some c => some c
      | none => (a :: b :: rest).head?

/-- `InferenceEngine._select_best_cell_from_group`.  `pick` models
`random.choice`; the `_set_reasoning_for_cell` calls only write trace
strings and are omitted. -/
def select_best_cell_from_group (kb : PropositionalKB) (pick : List Pos → Pos) :
    List Pos → Pos → Int → Except PyErr (Option Pos)
  | [], _, _ => .ok none
  | [c], _, _ => .ok (some c)
  | a :: b :: rest, _, safety_score =>
      let unvisited_candidates :=
        (a :: b :: rest).filter fun c => !(kb.query (.visited c))
      if 800 ≤ safety_score then
        if !unvisited_candidates.isEmpty then
          select_best_exploration_cell unvisited_candidates
        else
          .ok (select_best_backtrack_cell kb (a :: b :: rest))
      else
        if !unvisited_candidates.isEmpty then
          select_best_exploration_cell unvisited_candidates
        else
          .ok (some (pick (a :: b :: rest)))

/-- Stable insertion of one scored cell into a descending-sorted list;
an element with a score equal to an existing one goes after it, which
reproduces the stability of Python's `list.sort(..., reverse=True)`. -/
def insertDesc (o : Pos × Int) : List (Pos × Int) → List (Pos × Int)
  | [] => [o]
  | b :: bs => if o.2 ≤ b.2 then b :: insertDesc o bs else o :: b :: bs

/-- Stable descending sort by score (`cell_options.sort(key=score,
reverse=True)`). -/
def sortByScoreDesc (l : List (Pos × Int)) : List (Pos × Int) :=
  l.foldl (fun acc o => insertDesc o acc) []

/-- `InferenceEngine._choose_next_move_with_efficient_search`. -/
def choose_next_move_with_efficient_search (kb : PropositionalKB)
    (move_history : List Pos) (pick : List Pos → Pos) (current_pos : Pos) :
    Except PyErr (Option Pos) :=
  let adj_cells := get_adjacent_cells kb.grid_size current_pos
  let cell_options :=
    sortByScoreDesc (adj_cells.map fun c => (c, calculate_safety_score kb c))
  let safest_score := match cell_options with | [] => 0 | o :: _ => o.2
  let safest_cells :=
    (cell_options.filter fun o => o.2 = safest_score).map Prod.fst
  let non_loop_safest :=
    safest_cells.filter fun c => !(would_create_loop move_history c)
  if !non_loop_safest.isEmpty then
    select_best_cell_from_group kb pick non_loop_safest current_pos safest_score
  else
    let fallthrough : Except PyErr (Option Pos) :=
      if !safest_cells.isEmpty then
        select_best_cell_from_group kb pick safest_cells current_pos safest_score
      else if !adj_cells.isEmpty then .ok (some (pick adj_cells))
      else .ok none
    if 1 < cell_options.length then
      match cell_options.find? (fun o => o.2 < safest_score) with
      | some o2 =>
          let second_safest_cells :=
            (cell_options.filter fun o => o.2 = o2.2).map Prod.fst
          let non_loop_second :=
            second_safest_cells.filter fun c => !(would_create_loop move_history c)
          if !non_loop_second.isEmpty then
            select_best_cell_from_group kb pick non_loop_second current_pos o2.2
          else fallthrough
      | none => fallthrough
    else fallthrough

/-- `InferenceEngine._is_safe_to_move`. -/
def is_safe_to_move (kb : PropositionalKB) (position : Pos) : Bool :=
  if ¬(0 ≤ position.1 ∧ position.1 < kb.grid_size ∧
        0 ≤ position.2 ∧ position.2 < kb.grid_size) then false
  else if kb.query (.visited position) then true
  else decide (kb.get_confidence position .pit = 0 ∧
               kb.get_confidence position .wumpus = 0)

/-- `InferenceEngine._find_path_to_exit`: only the single axis-neighbour
toward the origin is probed, x first (`x > 0` means try `(x-1, y)`),
then y; `None` when neither immediate neighbour passes the check. -/
def find_path_to_exit (kb : PropositionalKB) (current_pos : Pos) : Option String :=
  let x := current_pos.1
  let y := current_pos.2
  let tryY : Option String :=
    if 0 < y then
      (if is_safe_to_move kb (x, y - 1) then some "MOVE_UP" else none)
    else if y < 0 then
      (if is_safe_to_move kb (x, y + 1) then some "MOVE_DOWN" else none)
    else none
  if 0 < x then
    (if is_safe_to_move kb (x - 1, y) then some "MOVE_LEFT" else tryY)
  else if x < 0 then
    (if is_safe_to_move kb (x + 1, y) then some "MOVE_RIGHT" else tryY)
  else tryY

/-- `InferenceEngine._get_direction`. -/
def get_direction (current_pos next_pos : Pos) : String :=
  if next_pos.1 = current_pos.1 ∧ next_pos.2 = current_pos.2 - 1 then "UP"
  else if next_pos.1 = current_pos.1 ∧ next_pos.2 = current_pos.2 + 1 then "DOWN"
  else if next_pos.1 = current_pos.1 - 1 ∧ next_pos.2 = current_pos.2 then "LEFT"
  else if next_pos.1 = current_pos.1 + 1 ∧ next_pos.2 = current_pos.2 then "RIGHT"
  else ""

/-- The exploration tail of `determine_next_action`: run
`_choose_next_move_with_efficient_search`, propagate its exception,
return `STAY` when it yields no cell, else the move toward the cell. -/
def explore_step (kb : PropositionalKB) (move_history : List Pos)
    (pick : List Pos → Pos) (current_pos : Pos) : Except PyErr String :=
  match choose_next_move_with_efficient_search kb move_history pick current_pos with
  | .error e => .error e
  | .ok none => .ok "STAY"
  | .ok (some c) => .ok ("MOVE_" ++ get_direction current_pos c)

/-- `InferenceEngine.determine_next_action`, as a function of the
knowledge base, the move history and the `random.choice` oracle.  The
appends to `visited_positions`/`move_history` and the reasoning-string
writes happen after (or independently of) the choice of action and do
not influence the returned value, so they are not threaded here.  The
`grid_size` parameter of the source method is never read (the engine
uses `self.kb.grid_size`). -/
def determine_next_action (kb : PropositionalKB) (move_history : List Pos)
    (pick : List Pos → Pos) (current_pos : Pos) (percepts : List String)
    (_grid_size : Int) : Except PyErr String :=
  if "Glitter" ∈ percepts then .ok "GRAB"
  else
    if kb.has_gold_location ∧ current_pos ≠ (0, 0) then
      match find_path_to_exit kb current_pos with
      | some action => .ok action
      | none => explore_step kb move_history pick current_pos
    else explore_step kb move_history pick current_pos

end InferenceEngine

/-! ### Generic fold invariants -/

/-- A predicate preserved by every step of a left fold holds of the
result. -/
theorem foldl_invariant {α β : Type} (f : β → α → β) (P : β → Prop) :
    ∀ (l : List α) (b : β), P b → (∀ b' a, a ∈ l → P b' → P (f b' a)) →
      P (l.foldl f b)
  | [], _, hb, _ => hb
  | a :: l, b, hb, hstep =>
      foldl_invariant f P l (f b a)
        (hstep b a (List.mem_cons_self a l) hb)
        (fun b' a' ha' => hstep b' a' (List.mem_cons_of_mem a ha'))

namespace PropositionalKB

/-! ### Forward chaining reaches a fixpoint -/

theorem forward_step_subset (st : List Fact × Bool) (r : Premise × Fact) :
    st.1 ⊆ (forward_step st r).1 := by
  unfold forward_step
  split
  · exact fun x hx => List.mem_append_left _ hx
  · exact fun x hx => hx

theorem forward_pass_foldl_subset (l : List (Premise × Fact)) :
    ∀ st : List Fact × Bool, st.1 ⊆ (l.foldl forward_step st).1 := by
  induction l with
  | nil => exact fun st => fun x hx => hx
  | cons r l ih =>
      intro st
      exact fun x hx => ih (forward_step st r) (forward_step_subset st r hx)

/-- Facts are monotone under one forward pass. -/
theorem forward_pass_subset (rules : List (Premise × Fact)) (facts : List Fact) :
    facts ⊆ (forward_pass rules facts).1 :=
  forward_pass_foldl_subset rules (facts, false)

theorem forward_pass_foldl_new_mem (l : List (Premise × Fact)) :
    ∀ (st : List Fact × Bool) (x : Fact), x ∈ (l.foldl forward_step st).1 →
      x ∈ st.1 ∨ x ∈ l.map Prod.snd := by
  induction l with
  | nil => exact fun st x hx => Or.inl hx
  | cons r l ih =>
      intro st x hx
      rcases ih (forward_step st r) x hx with h | h
      · unfold forward_step at h
        split at h
        · rcases List.mem_append.mp h with h' | h'
          · exact Or.inl h'
          · refine Or.inr ?_
            rw [List.eq_of_mem_singleton h']
            exact List.mem_map_of_mem Prod.snd (List.mem_cons_self r l)
        · exact Or.inl h
      · refine Or.inr ?_
        rcases List.mem_map.mp h with ⟨a, ha, rfl⟩
        exact List.mem_map_of_mem Prod.snd (List.mem_cons_of_mem r ha)

/-- A forward pass only ever adds rule conclusions. -/
theorem forward_pass_new_mem (rules : List (Premise × Fact)) (facts : List Fact)
    (x : Fact) (hx : x ∈ (forward_pass rules facts).1) :
    x ∈ facts ∨ x ∈ rules.map Prod.snd :=
  forward_pass_foldl_new_mem rules (facts, false) x hx

theorem forward_step_flag (st : List Fact × Bool) (r : Premise × Fact)
    (h : st.2 = true) : (forward_step st r).2 = true := by
  unfold forward_step
  split
  · rfl
  · exact h

theorem forward_pass_foldl_flag (l : List (Premise × Fact)) :
    ∀ st : List Fact × Bool, st.2 = true → (l.foldl forward_step st).2 = true := by
  induction l with
  | nil => exact fun st h => h
  | cons r l ih => exact fun st h => ih (forward_step st r) (forward_step_flag st r h)

theorem forward_pass_foldl_unchanged (l : List (Premise × Fact)) :
    ∀ st : List Fact × Bool, (l.foldl forward_step st).2 = false →
      (l.foldl forward_step st).1 = st.1 := by
  induction l with
  | nil => exact fun st _ => rfl
  | cons r l ih =>
      intro st hfl
      simp only [List.foldl_cons] at hfl ⊢
      by_cases hc : canInfer st.1 r.1 ∧ r.2 ∉ st.1
      · exfalso
        have hstep : forward_step st r = (st.1 ++ [r.2], true) := by
          unfold forward_step
          simp [hc]
        rw [hstep] at hfl
        have := forward_pass_foldl_flag l (st.1 ++ [r.2], true) rfl
        rw [this] at hfl
        exact Bool.true_eq_false.mp hfl
      · have hstep : forward_step st r = st := by
          unfold forward_step
          simp [hc]
        rw [hstep] at hfl ⊢
        exact ih st hfl

/-- A pass that reports no change leaves the facts untouched. -/
theorem forward_pass_unchanged (rules : List (Premise × Fact)) (facts : List Fact)
    (h : (forward_pass rules facts).2 = false) :
    (forward_pass rules facts).1 = facts :=
  forward_pass_foldl_unchanged rules (facts, false) h

theorem forward_pass_foldl_changed (l : List (Premise × Fact)) :
    ∀ st : List Fact × Bool, (l.foldl forward_step st).2 = true →
      st.2 = true ∨ ∃ c, c ∈ l.map Prod.snd ∧ c ∉ st.1 ∧ c ∈ (l.foldl forward_step st).1 := by
  induction l with
  | nil => exact fun st h => Or.inl h
  | cons r l ih =>
      intro st hfl
      simp only [List.foldl_cons] at hfl ⊢
      by_cases hc : canInfer st.1 r.1 ∧ r.2 ∉ st.1
      · have hstep : forward_step st r = (st.1 ++ [r.2], true) := by
          unfold forward_step
          simp [hc]
        refine Or.inr ⟨r.2, List.mem_map_of_mem Prod.snd (List.mem_cons_self r l), hc.2, ?_⟩
        rw [hstep] at hfl ⊢
        exact forward_pass_foldl_subset l _ (List.mem_append_right _ (List.mem_singleton.mpr rfl))
      · have hstep : forward_step st r = st := by
          unfold forward_step
          simp [hc]
        rw [hstep] at hfl ⊢
        rcases ih st hfl with h | ⟨c, hc1, hc2, hc3⟩
        · exact Or.inl h
        · refine Or.inr ⟨c, ?_, hc2, hc3⟩
          simp only [List.map_cons, List.mem_cons]
          exact Or.inr hc1

/-- A pass that reports a change has added some rule conclusion. -/
theorem forward_pass_changed (rules : List (Premise × Fact)) (facts : List Fact)
    (h : (forward_pass rules facts).2 = true) :
    ∃ c, c ∈ rules.map Prod.snd ∧ c ∉ facts ∧ c ∈ (forward_pass rules facts).1 := by
  rcases forward_pass_foldl_changed rules (facts, false) h with h' | h'
  · exact absurd h' (by simp)
  · exact h'

/-- The number of distinct rule conclusions already present, the measure
that bounds the number of changed passes. -/
def conclCount (rules : List (Premise × Fact)) (facts : List Fact) : Nat :=
  ((rules.map Prod.snd).toFinset.filter (fun c => c ∈ facts)).card

theorem conclCount_le (rules : List (Premise × Fact)) (facts : List Fact) :
    conclCount rules facts ≤ rules.length := by
  calc ((rules.map Prod.snd).toFinset.filter (fun c => c ∈ facts)).card
      ≤ (rules.map Prod.snd).toFinset.card :=
        Finset.card_le_card (Finset.filter_subset _ _)
    _ ≤ (rules.map Prod.snd).length := (rules.map Prod.snd).toFinset_card_le
    _ = rules.length := List.length_map rules Prod.snd

theorem conclCount_mono (rules : List (Premise × Fact)) (f1 f2 : List Fact)
    (h : f1 ⊆ f2) : conclCount rules f1 ≤ conclCount rules f2 := by
  refine Finset.card_le_card (Finset.monotone_filter_right _ ?_)
  intro c hc
  exact h hc

theorem conclCount_lt_of_changed (rules : List (Premise × Fact)) (facts : List Fact)
    (h : (forward_pass rules facts).2 = true) :
    conclCount rules facts < conclCount rules (forward_pass rules facts).1 := by
  rcases forward_pass_changed rules facts h with ⟨c, hc1, hc2, hc3⟩
  refine Finset.card_lt_card ⟨Finset.monotone_filter_right _ ?_, ?_⟩
  · intro x hx
    exact forward_pass_subset rules facts hx
  · intro hsub
    have hcmem : c ∈ (rules.map Prod.snd).toFinset.filter
        (fun x => x ∈ (forward_pass rules facts).1) := by
      simp only [Finset.mem_filter, List.mem_toFinset]
      exact ⟨hc1, hc3⟩
    have hmem2 := hsub hcmem
    simp only [Finset.mem_filter, List.mem_toFinset] at hmem2
    exact hc2 hmem2.2

/-- With a fuel surplus over the conclusion measure, the state reached by
`forward_chain_aux` is a fixpoint of `forward_pass`. -/
theorem forward_chain_aux_fix (rules : List (Premise × Fact)) :
    ∀ (fuel : Nat) (facts : List Fact),
      rules.length < fuel + conclCount rules facts →
      (forward_pass rules (forward_chain_aux rules fuel facts)).2 = false := by
  intro fuel
  induction fuel with
  | zero =>
      intro facts h
      exact absurd (conclCount_le rules facts) (by omega)
  | succ n ih =>
      intro facts h
      show (forward_pass rules (forward_chain_aux rules (n + 1) facts)).2 = false
      unfold forward_chain_aux
      by_cases hch : (forward_pass rules facts).2 = true
      · simp only [hch, if_true]
        refine ih (forward_pass rules facts).1 ?_
        have := conclCount_lt_of_changed rules facts hch
        omega
      · simp only [Bool.not_eq_true] at hch
        simp only [hch, if_false]
        exact hch

/-- The fact list produced by `forward_chain` is a `forward_pass`
fixpoint: the fuel `rules.length + 1` always suffices. -/
theorem forward_pass_of_forward_chain (kb : PropositionalKB) :
    (forward_pass kb.rules (forward_chain kb).facts).2 = false := by
  show (forward_pass kb.rules (forward_chain_aux kb.rules (kb.rules.length + 1) kb.facts)).2 = false
  refine forward_chain_aux_fix kb.rules (kb.rules.length + 1) kb.facts ?_
  omega

theorem forward_chain_facts_subset (kb : PropositionalKB) :
    kb.facts ⊆ (forward_chain kb).facts := by
  show kb.facts ⊆ forward_chain_aux kb.rules (kb.rules.length + 1) kb.facts
  generalize kb.rules.length + 1 = fuel
  induction fuel generalizing kb with
  | zero => exact fun x hx => hx
  | succ n ih =>
      unfold forward_chain_aux
      by_cases hch : (forward_pass kb.rules kb.facts).2 = true
      · simp only [hch, if_true]
        intro x hx
        have hx' : x ∈ (forward_pass kb.rules kb.facts).1 :=
          forward_pass_subset kb.rules kb.facts hx
        exact ih { kb with facts := (forward_pass kb.rules kb.facts).1 } hx'
      · simp only [Bool.not_eq_true] at hch
        simp only [hch, if_false]
        exact fun x hx => hx

theorem forward_chain_aux_new_mem (rules : List (Premise × Fact)) :
    ∀ (fuel : Nat) (facts : List Fact) (x : Fact),
      x ∈ forward_chain_aux rules fuel facts →
      x ∈ facts ∨ x ∈ rules.map Prod.snd := by
  intro fuel
  induction fuel with
  | zero => exact fun facts x hx => Or.inl hx
  | succ n ih =>
      intro facts x hx
      unfold forward_chain_aux at hx
      by_cases hch : (forward_pass rules facts).2 = true
      · simp only [hch, if_true] at hx
        rcases ih (forward_pass rules facts).1 x hx with h | h
        · exact forward_pass_new_mem rules facts x h
        · exact Or.inr h
      · simp only [Bool.not_eq_true] at hch
        simp only [hch, if_false] at hx
        exact Or.inl hx

/-- Forward chaining only ever adds rule conclusions to the fact set. -/
theorem forward_chain_new_mem (kb : PropositionalKB) (x : Fact)
    (hx : x ∈ (forward_chain kb).facts) :
    x ∈ kb.facts ∨ x ∈ kb.rules.map Prod.snd :=
  forward_chain_aux_new_mem kb.rules (kb.rules.length + 1) kb.facts x hx

/-! ### Field bookkeeping for the knowledge-base operations -/

theorem add_fact_rules (kb : PropositionalKB) (f : Fact) :
    (kb.add_fact f).rules = kb.rules := by
  unfold add_fact
  split <;> rfl

theorem add_fact_grid_size (kb : PropositionalKB) (f : Fact) :
    (kb.add_fact f).grid_size = kb.grid_size := by
  unfold add_fact
  split <;> rfl

theorem add_fact_conf (kb : PropositionalKB) (f : Fact) :
    (kb.add_fact f).cell_confidence = kb.cell_confidence := by
  unfold add_fact
  split <;> rfl

theorem add_fact_gold (kb : PropositionalKB) (f : Fact) :
    (kb.add_fact f).gold_cell = kb.gold_cell := by
  unfold add_fact
  split <;> rfl

theorem mem_add_fact (kb : PropositionalKB) (f x : Fact) :
    x ∈ (kb.add_fact f).facts ↔ x ∈ kb.facts ∨ x = f := by
  unfold add_fact
  split
  · rename_i hmem
    constructor
    · exact Or.inl
    · rintro (h | rfl)
      · exact h
      · exact hmem
  · simp [List.mem_append]

theorem add_fact_facts_subset (kb : PropositionalKB) (f : Fact) :
    kb.facts ⊆ (kb.add_fact f).facts :=
  fun x hx => (mem_add_fact kb f x).mpr (Or.inl hx)

theorem mem_add_fact_self (kb : PropositionalKB) (f : Fact) :
    f ∈ (kb.add_fact f).facts :=
  (mem_add_fact kb f f).mpr (Or.inr rfl)

theorem set_confidence_facts (kb : PropositionalKB) (p : Pos) (t : Threat) (v : Rat) :
    (kb.set_confidence p t v).facts = kb.facts := rfl

theorem set_confidence_rules (kb : PropositionalKB) (p : Pos) (t : Threat) (v : Rat) :
    (kb.set_confidence p t v).rules = kb.rules := rfl

theorem get_set_confidence (kb : PropositionalKB) (p : Pos) (t : Threat) (v : Rat)
    (q : Pos) (s : Threat) :
    (kb.set_confidence p t v).get_confidence q s =
      if q = p ∧ s = t then v else kb.get_confidence q s := rfl

theorem forward_chain_rules (kb : PropositionalKB) :
    (forward_chain kb).rules = kb.rules := rfl

theorem forward_chain_conf (kb : PropositionalKB) :
    (forward_chain kb).cell_confidence = kb.cell_confidence := rfl

theorem forward_chain_gold (kb : PropositionalKB) :
    (forward_chain kb).gold_cell = kb.gold_cell := rfl

theorem forward_chain_grid_size (kb : PropositionalKB) :
    (forward_chain kb).grid_size = kb.grid_size := rfl

theorem update_playing_grid_facts (kb : PropositionalKB) :
    (update_playing_grid_from_kb kb).facts = kb.facts := rfl

theorem update_playing_grid_rules (kb : PropositionalKB) :
    (update_playing_grid_from_kb kb).rules = kb.rules := rfl

theorem update_playing_grid_conf (kb : PropositionalKB) :
    (update_playing_grid_from_kb kb).cell_confidence = kb.cell_confidence := rfl

theorem update_playing_grid_gold (kb : PropositionalKB) :
    (update_playing_grid_from_kb kb).gold_cell = kb.gold_cell := rfl

end PropositionalKB

open PropositionalKB in
/-- C5.  Forward-chain fixpoint: for every knowledge-base state, calling
`forward_chain` twice in a row with no intervening mutation leaves the
fact set after the second call equal to the fact set after the first
call — the second call adds no facts. -/
theorem C5_forward_chain_fixpoint (kb : PropositionalKB) :
    (forward_chain (forward_chain kb)).facts = (forward_chain kb).facts := by
  have hfix := forward_pass_of_forward_chain kb
  show forward_chain_aux (forward_chain kb).rules ((forward_chain kb).rules.length + 1)
        (forward_chain kb).facts = (forward_chain kb).facts
  have hrules : (forward_chain kb).rules = kb.rules := rfl
  rw [hrules]
  unfold forward_chain_aux
  simp [hfix]

namespace PropositionalKB

/-! ### The confidence domain -/

/-- The discrete confidence tiers `{0.0, 0.2, 0.5, 1.0}` of the spec. -/
def isTier (c : Rat) : Bool :=
  decide (c = 0 ∨ c = mkRat 1 5 ∨ c = mkRat 1 2 ∨ c = 1)

/-- Every stored confidence value lies in the tier set. -/
def ConfOk (kb : PropositionalKB) : Prop :=
  ∀ (p : Pos) (t : Threat), isTier (kb.cell_confidence p t) = true

theorem confOk_init (n : Int) : ConfOk (init n) := by
  intro p t
  show isTier 0 = true
  decide

theorem confOk_set_confidence {kb : PropositionalKB} (h : ConfOk kb)
    (p : Pos) (t : Threat) (v : Rat) (hv : isTier v = true) :
    ConfOk (kb.set_confidence p t v) := by
  intro q s
  show isTier (if q = p ∧ s = t then v else kb.cell_confidence q s) = true
  split
  · exact hv
  · exact h q s

theorem confOk_add_fact {kb : PropositionalKB} (h : ConfOk kb) (f : Fact) :
    ConfOk (kb.add_fact f) := by
  intro q s
  rw [add_fact_conf]
  exact h q s

theorem confOk_mark_adjacent_safe {kb : PropositionalKB} (h : ConfOk kb) (pos : Pos) :
    ConfOk (mark_adjacent_safe kb pos) := by
  unfold mark_adjacent_safe
  refine foldl_invariant _ ConfOk _ kb h ?_
  intro k q _ hk
  exact confOk_set_confidence
    (confOk_set_confidence (confOk_add_fact hk _) q .pit 0 (by decide)) q .wumpus 0 (by decide)

theorem confOk_process_signal {kb : PropositionalKB} (h : ConfOk kb)
    (t : Threat) (pos : Pos) : ConfOk (process_signal kb t pos) := by
  simp only [process_signal]
  split
  · refine foldl_invariant _ ConfOk _ kb h ?_
    intro k q _ hk
    split
    · split
      · exact confOk_set_confidence hk q t (mkRat 1 5) (by decide)
      · exact hk
    · exact hk
  · split
    · exact confOk_add_fact (confOk_set_confidence h _ t 1 (by decide)) _
    · split
      · exact confOk_add_fact (confOk_set_confidence h _ t 1 (by decide)) _
      · refine foldl_invariant _ ConfOk _ kb h ?_
        intro k q _ hk
        split
        · exact confOk_add_fact (confOk_set_confidence hk q t (mkRat 1 2) (by decide)) _
        · exact hk

theorem confOk_process_breeze_and_stench {kb : PropositionalKB} (h : ConfOk kb)
    (pos : Pos) : ConfOk (process_breeze_and_stench kb pos) := by
  simp only [process_breeze_and_stench]
  split
  · refine foldl_invariant _ ConfOk _ kb h ?_
    intro k q _ hk
    split
    · exact confOk_add_fact (confOk_set_confidence hk q .wumpus (mkRat 1 2) (by decide)) _
    · exact hk
  · split
    · refine foldl_invariant _ ConfOk _ kb h ?_
      intro k q _ hk
      split
      · exact confOk_add_fact (confOk_set_confidence hk q .pit (mkRat 1 2) (by decide)) _
      · exact hk
    · refine foldl_invariant _ ConfOk _ kb h ?_
      intro k q _ hk
      split
      · exact confOk_add_fact (confOk_add_fact (confOk_set_confidence
          (confOk_set_confidence hk q .pit (mkRat 1 2) (by decide)) q .wumpus (mkRat 1 2)
          (by decide)) _) _
      · exact hk

theorem confOk_forward_chain {kb : PropositionalKB} (h : ConfOk kb) :
    ConfOk (forward_chain kb) := by
  intro q s
  rw [forward_chain_conf]
  exact h q s

theorem confOk_update_playing_grid {kb : PropositionalKB} (h : ConfOk kb) :
    ConfOk (update_playing_grid_from_kb kb) := by
  intro q s
  rw [update_playing_grid_conf]
  exact h q s

theorem confOk_update_dispatch {kb : PropositionalKB} (h : ConfOk kb)
    (pos : Pos) (c : Char) : ConfOk (update_dispatch kb pos c) := by
  unfold update_dispatch
  split
  · exact confOk_mark_adjacent_safe
      (confOk_add_fact (confOk_add_fact (confOk_add_fact h _) _) _) pos
  · split
    · exact confOk_process_signal (confOk_add_fact (confOk_add_fact h _) _) .pit pos
    · split
      · exact confOk_process_signal (confOk_add_fact (confOk_add_fact h _) _) .wumpus pos
      · split
        · exact confOk_process_breeze_and_stench
            (confOk_add_fact (confOk_add_fact h _) _) pos
        · split
          · intro q s
            show isTier ((PropositionalKB.add_fact _ _).cell_confidence q s) = true
            rw [add_fact_conf, add_fact_conf]
            exact h q s
          · exact h

/-- `update_knowledge_base` keeps every confidence value in the tier
set: all its `set_confidence` writes use the literals `0.0`, `0.2`,
`0.5`, `1.0`. -/
theorem confOk_update_knowledge_base {kb : PropositionalKB} (h : ConfOk kb)
    (pos : Pos) (percepts : List String) :
    ConfOk (kb.update_knowledge_base pos percepts) := by
  intro q s
  show isTier
    (((update_dispatch kb pos (classify_percepts percepts)).add_fact
        (Fact.visited pos)).cell_confidence q s) = true
  rw [add_fact_conf]
  exact confOk_update_dispatch h pos _ q s

/-! ### Rules are never modified by an update -/

theorem mark_adjacent_safe_rules (kb : PropositionalKB) (pos : Pos) :
    (mark_adjacent_safe kb pos).rules = kb.rules := by
  unfold mark_adjacent_safe
  refine foldl_invariant _ (fun k => k.rules = kb.rules) _ kb rfl ?_
  intro k q _ hk
  show (((k.add_fact (Fact.safe q)).set_confidence q .pit 0).set_confidence q
      .wumpus 0).rules = kb.rules
  rw [set_confidence_rules, set_confidence_rules, add_fact_rules]
  exact hk

theorem process_signal_rules (kb : PropositionalKB) (t : Threat) (pos : Pos) :
    (process_signal kb t pos).rules = kb.rules := by
  simp only [process_signal]
  split
  · refine foldl_invariant _ (fun k => k.rules = kb.rules) _ kb rfl ?_
    intro k q _ hk
    split
    · split
      · rw [set_confidence_rules]
        exact hk
      · exact hk
    · exact hk
  · split
    · rw [add_fact_rules, set_confidence_rules]
    · split
      · rw [add_fact_rules, set_confidence_rules]
      · refine foldl_invariant _ (fun k => k.rules = kb.rules) _ kb rfl ?_
        intro k q _ hk
        split
        · rw [add_fact_rules, set_confidence_rules]
          exact hk
        · exact hk

theorem process_breeze_and_stench_rules (kb : PropositionalKB) (pos : Pos) :
    (process_breeze_and_stench kb pos).rules = kb.rules := by
  simp only [process_breeze_and_stench]
  split
  · refine foldl_invariant _ (fun k => k.rules = kb.rules) _ kb rfl ?_
    intro k q _ hk
    split
    · rw [add_fact_rules, set_confidence_rules]
      exact hk
    · exact hk
  · split
    · refine foldl_invariant _ (fun k => k.rules = kb.rules) _ kb rfl ?_
      intro k q _ hk
      split
      · rw [add_fact_rules, set_confidence_rules]
        exact hk
      · exact hk
    · refine foldl_invariant _ (fun k => k.rules = kb.rules) _ kb rfl ?_
      intro k q _ hk
      split
      · rw [add_fact_rules, add_fact_rules, set_confidence_rules, set_confidence_rules]
        exact hk
      · exact hk

theorem update_dispatch_rules (kb : PropositionalKB) (pos : Pos) (c : Char) :
    (update_dispatch kb pos c).rules = kb.rules := by
  unfold update_dispatch
  split
  · rw [mark_adjacent_safe_rules, add_fact_rules, add_fact_rules, add_fact_rules]
  · split
    · show (process_signal _ .pit pos).rules = kb.rules
      rw [process_signal_rules, add_fact_rules, add_fact_rules]
    · split
      · show (process_signal _ .wumpus pos).rules = kb.rules
        rw [process_signal_rules, add_fact_rules, add_fact_rules]
      · split
        · rw [process_breeze_and_stench_rules, add_fact_rules, add_fact_rules]
        · split
          · show ((kb.add_fact (Fact.glitter pos)).add_fact (Fact.gold pos)).rules = kb.rules
            rw [add_fact_rules, add_fact_rules]
          · rfl

theorem update_knowledge_base_rules (kb : PropositionalKB) (pos : Pos)
    (percepts : List String) :
    (kb.update_knowledge_base pos percepts).rules = kb.rules := by
  show ((update_dispatch kb pos (classify_percepts percepts)).add_fact
      (Fact.visited pos)).rules = kb.rules
  rw [add_fact_rules, update_dispatch_rules]

/-- The fact set after an update, characterised compositionally: the
dispatch handler runs, `Visited` is recorded, and the rule engine closes
the set (the playing-grid writes do not touch facts). -/
theorem update_knowledge_base_facts (kb : PropositionalKB) (pos : Pos)
    (percepts : List String) :
    (kb.update_knowledge_base pos percepts).facts =
      forward_chain_aux kb.rules (kb.rules.length + 1)
        ((update_dispatch kb pos (classify_percepts percepts)).add_fact
          (Fact.visited pos)).facts := by
  have hrules : ((update_dispatch kb pos (classify_percepts percepts)).add_fact
      (Fact.visited pos)).rules = kb.rules := by
    rw [add_fact_rules, update_dispatch_rules]
  show forward_chain_aux
      ((update_dispatch kb pos (classify_percepts percepts)).add_fact
        (Fact.visited pos)).rules
      (((update_dispatch kb pos (classify_percepts percepts)).add_fact
        (Fact.visited pos)).rules.length + 1)
      ((update_dispatch kb pos (classify_percepts percepts)).add_fact
        (Fact.visited pos)).facts = _
  rw [hrules]

/-! ### Facts only grow under an update -/

theorem mark_adjacent_safe_facts_subset (kb : PropositionalKB) (pos : Pos) :
    kb.facts ⊆ (mark_adjacent_safe kb pos).facts := by
  unfold mark_adjacent_safe
  refine foldl_invariant _ (fun k => kb.facts ⊆ k.facts) _ kb (fun x hx => hx) ?_
  intro k q _ hk
  show kb.facts ⊆ (k.add_fact (.safe q)).facts
  exact hk.trans (add_fact_facts_subset k _)

theorem process_signal_facts_subset (kb : PropositionalKB) (t : Threat) (pos : Pos) :
    kb.facts ⊆ (process_signal kb t pos).facts := by
  simp only [process_signal]
  split
  · refine foldl_invariant _ (fun k => kb.facts ⊆ k.facts) _ kb (fun x hx => hx) ?_
    intro k q _ hk
    split
    · split
      · exact hk
      · exact hk
    · exact hk
  · split
    · exact add_fact_facts_subset (kb.set_confidence _ t 1) _
    · split
      · exact add_fact_facts_subset (kb.set_confidence _ t 1) _
      · refine foldl_invariant _ (fun k => kb.facts ⊆ k.facts) _ kb (fun x hx => hx) ?_
        intro k q _ hk
        split
        · exact hk.trans (add_fact_facts_subset (k.set_confidence q t (mkRat 1 2)) _)
        · exact hk

theorem process_breeze_and_stench_facts_subset (kb : PropositionalKB) (pos : Pos) :
    kb.facts ⊆ (process_breeze_and_stench kb pos).facts := by
  simp only [process_breeze_and_stench]
  split
  · refine foldl_invariant _ (fun k => kb.facts ⊆ k.facts) _ kb (fun x hx => hx) ?_
    intro k q _ hk
    split
    · exact hk.trans (add_fact_facts_subset (k.set_confidence q .wumpus (mkRat 1 2)) _)
    · exact hk
  · split
    · refine foldl_invariant _ (fun k => kb.facts ⊆ k.facts) _ kb (fun x hx => hx) ?_
      intro k q _ hk
      split
      · exact hk.trans (add_fact_facts_subset (k.set_confidence q .pit (mkRat 1 2)) _)
      · exact hk
    · refine foldl_invariant _ (fun k => kb.facts ⊆ k.facts) _ kb (fun x hx => hx) ?_
      intro k q _ hk
      split
      · exact ((hk.trans (add_fact_facts_subset
          ((k.set_confidence q .pit (mkRat 1 2)).set_confidence q .wumpus (mkRat 1 2))
          _)).trans (add_fact_facts_subset _ _))
      · exact hk

theorem update_dispatch_facts_subset (kb : PropositionalKB) (pos : Pos) (c : Char) :
    kb.facts ⊆ (update_dispatch kb pos c).facts := by
  unfold update_dispatch
  split
  · exact ((((add_fact_facts_subset _ _).trans (add_fact_facts_subset _ _)).trans
      (add_fact_facts_subset _ _)).trans (mark_adjacent_safe_facts_subset _ _))
  · split
    · exact ((add_fact_facts_subset _ _).trans (add_fact_facts_subset _ _)).trans
        (process_signal_facts_subset _ .pit _)
    · split
      · exact ((add_fact_facts_subset _ _).trans (add_fact_facts_subset _ _)).trans
          (process_signal_facts_subset _ .wumpus _)
      · split
        · exact ((add_fact_facts_subset _ _).trans (add_fact_facts_subset _ _)).trans
            (process_breeze_and_stench_facts_subset _ _)
        · split
          · show kb.facts ⊆
              ((kb.add_fact (Fact.glitter pos)).add_fact (Fact.gold pos)).facts
            exact (add_fact_facts_subset _ _).trans (add_fact_facts_subset _ _)
          · exact fun x hx => hx

theorem forward_chain_aux_subset (rules : List (Premise × Fact)) :
    ∀ (fuel : Nat) (facts : List Fact), facts ⊆ forward_chain_aux rules fuel facts := by
  intro fuel
  induction fuel with
  | zero => exact fun facts x hx => hx
  | succ n ih =>
      intro facts
      unfold forward_chain_aux
      by_cases hch : (forward_pass rules facts).2 = true
      · simp only [hch, if_true]
        exact (forward_pass_subset rules facts).trans (ih (forward_pass rules facts).1)
      · simp only [Bool.not_eq_true] at hch
        simp only [hch, if_false]
        exact fun x hx => hx

theorem update_knowledge_base_facts_subset (kb : PropositionalKB) (pos : Pos)
    (percepts : List String) :
    kb.facts ⊆ (kb.update_knowledge_base pos percepts).facts := by
  rw [update_knowledge_base_facts]
  exact ((update_dispatch_facts_subset kb pos _).trans
    (add_fact_facts_subset _ _)).trans (forward_chain_aux_subset _ _ _)

/-! ### Once a cell is visited, no new Possible facts name it -/

theorem possibleFact_eq_possibleFact {t' t : Threat} {p q : Pos}
    (h : t'.possibleFact p = t.possibleFact q) : t' = t ∧ p = q := by
  cases t' <;> cases t <;> simp [Threat.possibleFact] at h <;> simp [h]

theorem possibleFact_ne_definiteFact (t' t : Threat) (p q : Pos) :
    t'.possibleFact p ≠ t.definiteFact q := by
  cases t' <;> cases t <;> simp [Threat.possibleFact, Threat.definiteFact]

theorem mem_filter_not_visited {kb : PropositionalKB} {l : List Pos} {q : Pos}
    (hq : q ∈ l.filter fun c => !(kb.query (.visited c))) :
    Fact.visited q ∉ kb.facts := by
  have h2 := (List.mem_filter.mp hq).2
  simp only [Bool.not_eq_true', query, decide_eq_false_iff_not] at h2
  exact h2

theorem possible_not_addable {kb : PropositionalKB} {f : Fact} {t' : Threat} {p : Pos}
    (hne : t'.possibleFact p ≠ f)
    (hmem : t'.possibleFact p ∈ (kb.add_fact f).facts) :
    t'.possibleFact p ∈ kb.facts := by
  rcases (mem_add_fact _ _ _).mp hmem with h | h
  · exact h
  · exact absurd h hne

theorem mark_adjacent_safe_possible_mem (kb : PropositionalKB) (pos : Pos)
    (t' : Threat) (p : Pos)
    (hmem : t'.possibleFact p ∈ (mark_adjacent_safe kb pos).facts) :
    t'.possibleFact p ∈ kb.facts := by
  revert hmem
  unfold mark_adjacent_safe
  refine foldl_invariant _
    (fun k => t'.possibleFact p ∈ k.facts → t'.possibleFact p ∈ kb.facts) _ kb
    (fun h => h) ?_
  intro k q _ hk hmem
  have hmem' : t'.possibleFact p ∈ (k.add_fact (Fact.safe q)).facts := hmem
  rcases (mem_add_fact _ _ _).mp hmem' with h | h
  · exact hk h
  · exact absurd h (by cases t' <;> simp [Threat.possibleFact])

theorem process_signal_possible_mem (kb : PropositionalKB) (t : Threat) (pos : Pos)
    (t' : Threat) (p : Pos) (hv : Fact.visited p ∈ kb.facts)
    (hmem : t'.possibleFact p ∈ (process_signal kb t pos).facts) :
    t'.possibleFact p ∈ kb.facts := by
  revert hmem
  simp only [process_signal]
  split
  · refine foldl_invariant _
      (fun k => t'.possibleFact p ∈ k.facts → t'.possibleFact p ∈ kb.facts) _ kb
      (fun h => h) ?_
    intro k q _ hk
    split
    · split
      · exact hk
      · exact hk
    · exact hk
  · split
    · intro hmem
      rcases (mem_add_fact _ _ _).mp hmem with h | h
      · exact h
      · exact absurd h (possibleFact_ne_definiteFact t' t p _)
    · split
      · intro hmem
        rcases (mem_add_fact _ _ _).mp hmem with h | h
        · exact h
        · exact absurd h (possibleFact_ne_definiteFact t' t p _)
      · refine foldl_invariant _
          (fun k => t'.possibleFact p ∈ k.facts → t'.possibleFact p ∈ kb.facts) _ kb
          (fun h => h) ?_
        intro k q hq hk
        split
        · intro hmem
          rcases (mem_add_fact _ _ _).mp hmem with h | h
          · exact hk h
          · rcases possibleFact_eq_possibleFact h with ⟨_, rfl⟩
            exact absurd hv (mem_filter_not_visited hq)
        · exact hk

theorem process_breeze_and_stench_possible_mem (kb : PropositionalKB) (pos : Pos)
    (t' : Threat) (p : Pos) (hv : Fact.visited p ∈ kb.facts)
    (hmem : t'.possibleFact p ∈ (process_breeze_and_stench kb pos).facts) :
    t'.possibleFact p ∈ kb.facts := by
  revert hmem
  simp only [process_breeze_and_stench]
  split
  · refine foldl_invariant _
      (fun k => t'.possibleFact p ∈ k.facts → t'.possibleFact p ∈ kb.facts) _ kb
      (fun h => h) ?_
    intro k q hq hk
    split
    · intro hmem
      rcases (mem_add_fact _ _ _).mp hmem with h | h
      · exact hk h
      · rcases possibleFact_eq_possibleFact (t := .wumpus) h with ⟨_, rfl⟩
        exact absurd hv (mem_filter_not_visited hq)
    · exact hk
  · split
    · refine foldl_invariant _
        (fun k => t'.possibleFact p ∈ k.facts → t'.possibleFact p ∈ kb.facts) _ kb
        (fun h => h) ?_
      intro k q hq hk
      split
      · intro hmem
        rcases (mem_add_fact _ _ _).mp hmem with h | h
        · exact hk h
        · rcases possibleFact_eq_possibleFact (t := .pit) h with ⟨_, rfl⟩
          exact absurd hv (mem_filter_not_visited hq)
      · exact hk
    · refine foldl_invariant _
        (fun k => t'.possibleFact p ∈ k.facts → t'.possibleFact p ∈ kb.facts) _ kb
        (fun h => h) ?_
      intro k q hq hk
      split
      · intro hmem
        rcases (mem_add_fact _ _ _).mp hmem with h | h
        · rcases (mem_add_fact _ _ _).mp h with h2 | h2
          · exact hk h2
          · rcases possibleFact_eq_possibleFact (t := .pit) h2 with ⟨_, rfl⟩
            exact absurd hv (mem_filter_not_visited hq)
        · rcases possibleFact_eq_possibleFact (t := .wumpus) h with ⟨_, rfl⟩
          exact absurd hv (mem_filter_not_visited hq)
      · exact hk

/-- Rule conclusions allowed by the program-registered rule set: only
`NoPit`, `NoWumpus` and `Safe` facts (cf. `add_wumpus_rules`). -/
def conclusionSafeOnly : Fact → Bool
  | .noPit _ => true
  | .noWumpus _ => true
  | .safe _ => true
  | _ => false

/-- All rules of the store conclude only `NoPit`/`NoWumpus`/`Safe`. -/
def RulesSafe (rules : List (Premise × Fact)) : Prop :=
  ∀ r ∈ rules, conclusionSafeOnly r.2 = true

theorem rulesSafe_resetKB (n : Int) : RulesSafe (resetKB n).rules := by
  intro r hr
  show conclusionSafeOnly r.2 = true
  have hr' : r ∈ (intRange n).flatMap fun y =>
      (intRange n).flatMap fun x => wumpusRulesAt n (x, y) := hr
  rcases List.mem_flatMap.mp hr' with ⟨y, _, hy⟩
  rcases List.mem_flatMap.mp hy with ⟨x, _, hx⟩
  unfold wumpusRulesAt at hx
  rcases List.mem_append.mp hx with h | h
  · rcases List.mem_append.mp h with h2 | h2
    · rcases List.mem_map.mp h2 with ⟨q, _, rfl⟩
      rfl
    · rcases List.mem_map.mp h2 with ⟨q, _, rfl⟩
      rfl
  · rcases List.mem_map.mp h with ⟨q, _, rfl⟩
    rfl

/-- Possible facts survive `update_dispatch` only if the named position
is unvisited: every handler derives them for unvisited neighbours only. -/
theorem update_dispatch_possible_mem (kb : PropositionalKB) (pos : Pos) (c : Char)
    (t' : Threat) (p : Pos) (hv : Fact.visited p ∈ kb.facts)
    (hmem : t'.possibleFact p ∈ (update_dispatch kb pos c).facts) :
    t'.possibleFact p ∈ kb.facts := by
  revert hmem
  unfold update_dispatch
  split
  · intro hmem
    have h3 := mark_adjacent_safe_possible_mem _ _ _ _ hmem
    have h4 := possible_not_addable (by cases t' <;> simp [Threat.possibleFact]) h3
    have h5 := possible_not_addable (by cases t' <;> simp [Threat.possibleFact]) h4
    exact possible_not_addable (by cases t' <;> simp [Threat.possibleFact]) h5
  · split
    · intro hmem
      have hv2 : Fact.visited p ∈
          ((kb.add_fact (Fact.breeze pos)).add_fact (Fact.noStench pos)).facts :=
        add_fact_facts_subset _ _ (add_fact_facts_subset _ _ hv)
      have h3 := process_signal_possible_mem _ .pit pos _ _ hv2 hmem
      have h4 := possible_not_addable (by cases t' <;> simp [Threat.possibleFact]) h3
      exact possible_not_addable (by cases t' <;> simp [Threat.possibleFact]) h4
    · split
      · intro hmem
        have hv2 : Fact.visited p ∈
            ((kb.add_fact (Fact.stench pos)).add_fact (Fact.noBreeze pos)).facts :=
          add_fact_facts_subset _ _ (add_fact_facts_subset _ _ hv)
        have h3 := process_signal_possible_mem _ .wumpus pos _ _ hv2 hmem
        have h4 := possible_not_addable (by cases t' <;> simp [Threat.possibleFact]) h3
        exact possible_not_addable (by cases t' <;> simp [Threat.possibleFact]) h4
      · split
        · intro hmem
          have hv2 : Fact.visited p ∈
              ((kb.add_fact (Fact.breeze pos)).add_fact (Fact.stench pos)).facts :=
            add_fact_facts_subset _ _ (add_fact_facts_subset _ _ hv)
          have h3 := process_breeze_and_stench_possible_mem _ pos _ _ hv2 hmem
          have h4 := possible_not_addable (by cases t' <;> simp [Threat.possibleFact]) h3
          exact possible_not_addable (by cases t' <;> simp [Threat.possibleFact]) h4
        · split
          · intro hmem
            have h3 : t'.possibleFact p ∈
                ((kb.add_fact (Fact.glitter pos)).add_fact (Fact.gold pos)).facts := hmem
            have h4 := possible_not_addable (by cases t' <;> simp [Threat.possibleFact]) h3
            exact possible_not_addable (by cases t' <;> simp [Threat.possibleFact]) h4
          · exact fun hmem => hmem

theorem forward_chain_aux_possible_mem (rules : List (Premise × Fact))
    (hr : RulesSafe rules) (fuel : Nat) (facts : List Fact) (t' : Threat) (p : Pos)
    (hmem : t'.possibleFact p ∈ forward_chain_aux rules fuel facts) :
    t'.possibleFact p ∈ facts := by
  rcases forward_chain_aux_new_mem rules fuel facts _ hmem with h | h
  · exact h
  · exfalso
    rcases List.mem_map.mp h with ⟨r, hrmem, hrq⟩
    have hconc := hr r hrmem
    rw [hrq] at hconc
    cases t' <;> simp [Threat.possibleFact, conclusionSafeOnly] at hconc

/-- One `update_knowledge_base` call never records a `PossiblePit` or
`PossibleWumpus` fact at an already-visited position: every handler
derives Possible facts only for unvisited neighbours, and under
`RulesSafe` forward chaining concludes no Possible facts at all. -/
theorem update_no_new_possible (kb : PropositionalKB) (pos : Pos)
    (percepts : List String) (hr : RulesSafe kb.rules) (t' : Threat) (p : Pos)
    (hv : Fact.visited p ∈ kb.facts)
    (hmem : t'.possibleFact p ∈ (kb.update_knowledge_base pos percepts).facts) :
    t'.possibleFact p ∈ kb.facts := by
  rw [update_knowledge_base_facts] at hmem
  have h2 := forward_chain_aux_possible_mem kb.rules hr _ _ t' p hmem
  have h3 := possible_not_addable (by cases t' <;> simp [Threat.possibleFact]) h2
  exact update_dispatch_possible_mem kb pos _ t' p hv h3

end PropositionalKB

/-- A sequence of `update_knowledge_base` calls, in visit order. -/
def runUpdates (kb : PropositionalKB) (steps : List (Pos × List String)) :
    PropositionalKB :=
  steps.foldl (fun k s => k.update_knowledge_base s.1 s.2) kb

/-- A call through the public mutating interface of the store used for
threat knowledge: an `update` or a direct `set_confidence`. -/
inductive PubCall where
  | update (position : Pos) (percepts : List String)
  | setConf (position : Pos) (threat_type : Threat) (confidence : Rat)

/-- Execute one public call. -/
def runCall (kb : PropositionalKB) : PubCall → PropositionalKB
  | .update pos percepts => kb.update_knowledge_base pos percepts
  | .setConf pos t v => kb.set_confidence pos t v

/-- Execute a sequence of public calls. -/
def runCalls (kb : PropositionalKB) (calls : List PubCall) : PropositionalKB :=
  calls.foldl runCall kb

/-- A public call whose written confidence values stay in the tier set
(`update` writes only the literals `0.0/0.2/0.5/1.0`; a `set_confidence`
qualifies when its argument is a tier value). -/
def tierCall : PubCall → Bool
  | .update _ _ => true
  | .setConf _ _ v => PropositionalKB.isTier v

/-! ### Claims C1 and C4 -/

open PropositionalKB in
/-- C1 counterexample.  The claim "once `Visited(p)` is recorded,
`getConfidence(p, k)` equals `0.0` for the rest of the episode" is false
on the code: after `update((0,0), [Breeze])` marks `(1,0)` as a `0.5`
pit suspect, the update `update((1,0), [])` records `Visited((1,0))` but
never clears that cell's own confidence, which stays `0.5`. -/
theorem C1_counterexample :
    Fact.visited (1, 0) ∈
      (runUpdates (resetKB 3) [((0, 0), ["Breeze"]), ((1, 0), [])]).facts ∧
    (runUpdates (resetKB 3) [((0, 0), ["Breeze"]), ((1, 0), [])]).get_confidence
      (1, 0) .pit = mkRat 1 2 ∧ (mkRat 1 2 : Rat) ≠ 0 :=
  ⟨of_decide_eq_true (by rfl), by rfl, by decide⟩

open PropositionalKB in
/-- C1 (amended).  Visited-freeze invariant, the part the code
satisfies: for every position `p`, once `Visited(p)` has been recorded,
no later `update_knowledge_base` call ever records a new
`PossiblePit(p)` or `PossibleWumpus(p)` fact (with the program's rule
set, whose conclusions are only `NoPit`/`NoWumpus`/`Safe`).  The
confidence part of the original claim fails: visiting a cell does not
clear the cell's own previously recorded confidence
(`C1_counterexample`). -/
theorem C1_visited_freeze_amended (kb : PropositionalKB)
    (steps : List (Pos × List String)) (p : Pos)
    (hr : RulesSafe kb.rules) (hv : Fact.visited p ∈ kb.facts)
    (hp : Fact.possiblePit p ∉ kb.facts) (hw : Fact.possibleWumpus p ∉ kb.facts) :
    Fact.possiblePit p ∉ (runUpdates kb steps).facts ∧
    Fact.possibleWumpus p ∉ (runUpdates kb steps).facts := by
  unfold runUpdates
  have key := foldl_invariant
    (fun k (s : Pos × List String) => k.update_knowledge_base s.1 s.2)
    (fun k => k.rules = kb.rules ∧ Fact.visited p ∈ k.facts ∧
      Fact.possiblePit p ∉ k.facts ∧ Fact.possibleWumpus p ∉ k.facts)
    steps kb ⟨rfl, hv, hp, hw⟩ ?stepcase
  case stepcase =>
    intro k a _ hk
    obtain ⟨hkr, hkv, hkp, hkw⟩ := hk
    refine ⟨?_, ?_, ?_, ?_⟩
    · rw [update_knowledge_base_rules]
      exact hkr
    · exact update_knowledge_base_facts_subset _ _ _ hkv
    · intro hmem
      exact hkp (update_no_new_possible k a.1 a.2 (hkr.symm ▸ hr) Threat.pit p hkv hmem)
    · intro hmem
      exact hkw (update_no_new_possible k a.1 a.2 (hkr.symm ▸ hr) Threat.wumpus p hkv hmem)
  exact ⟨key.2.2.1, key.2.2.2⟩

open PropositionalKB in
/-- Witness for `C1_visited_freeze_amended` at a concrete episode. -/
theorem C1_visited_freeze_witness :
    Fact.possiblePit (0, 0) ∉ (runUpdates (resetKB 3) [((0, 0), ["Breeze"])]).facts ∧
    Fact.possibleWumpus (0, 0) ∉ (runUpdates (resetKB 3) [((0, 0), ["Breeze"])]).facts :=
  C1_visited_freeze_amended (resetKB 3) [((0, 0), ["Breeze"])] (0, 0)
    (rulesSafe_resetKB 3) (by decide) (by decide) (by decide)

open PropositionalKB in
/-- C4 counterexample.  The claim quantifies over every sequence of
`update`/`set_confidence` calls reachable through the public interface,
but `set_confidence` performs no validation: the single public call
`set_confidence((0,0), pit, 0.7)` makes `get_confidence` return `0.7`,
which is outside `{0.0, 0.2, 0.5, 1.0}`. -/
theorem C4_counterexample :
    (runCalls (resetKB 3) [.setConf (0, 0) .pit (mkRat 7 10)]).get_confidence
      (0, 0) .pit = mkRat 7 10 ∧ isTier (mkRat 7 10) = false :=
  ⟨by rfl, by rfl⟩

open PropositionalKB in
/-- C4 (amended).  Confidence-domain invariant, restricted to the calls
the program itself performs: starting from the per-episode store, after
any sequence of `update_knowledge_base` calls and `set_confidence` calls
whose value argument lies in `{0.0, 0.2, 0.5, 1.0}`, every
`get_confidence(p, k)` lies in `{0.0, 0.2, 0.5, 1.0}`; an unwritten
position defaults to `0.0`.  An arbitrary-valued public `set_confidence`
can leave the domain (`C4_counterexample`). -/
theorem C4_confidence_domain_amended (n : Int) (calls : List PubCall)
    (hcalls : ∀ c ∈ calls, tierCall c = true) (p : Pos) (t : Threat) :
    isTier ((runCalls (resetKB n) calls).get_confidence p t) = true ∧
    (PropositionalKB.init n).get_confidence p t = 0 := by
  constructor
  · have h0 : ConfOk (resetKB n) := by
      intro q s
      show isTier ((((PropositionalKB.init n).add_fact (.safe (0, 0))).add_fact
          (.visited (0, 0))).cell_confidence q s) = true
      rw [add_fact_conf, add_fact_conf]
      exact confOk_init n q s
    refine foldl_invariant runCall ConfOk calls (resetKB n) h0 ?_ p t
    intro k c hc hk
    cases c with
    | update pos percepts => exact confOk_update_knowledge_base hk pos percepts
    | setConf pos th v => exact confOk_set_confidence hk pos th v (hcalls _ hc)
  · rfl

open PropositionalKB in
/-- Witness for `C4_confidence_domain_amended` at a concrete call
sequence mixing an update and a tier-valued `set_confidence`. -/
theorem C4_confidence_domain_witness :
    isTier ((runCalls (resetKB 3) [.update (0, 0) ["Breeze"],
      .setConf (1, 1) .pit (mkRat 1 2)]).get_confidence (0, 1) .pit) = true ∧
    (PropositionalKB.init 3).get_confidence (0, 1) .pit = 0 :=
  C4_confidence_domain_amended 3
    [.update (0, 0) ["Breeze"], .setConf (1, 1) .pit (mkRat 1 2)]
    (by decide) (0, 1) .pit

/-! ### Claims C9 and C10: the treasure-signal case -/

namespace PropositionalKB

theorem classify_percepts_glitter (percepts : List String)
    (hg : "Glitter" ∈ percepts) : classify_percepts percepts = 'G' := by
  unfold classify_percepts
  rw [if_pos (Or.inr hg), if_neg (List.ne_nil_of_mem hg)]

theorem update_dispatch_G_gold (kb : PropositionalKB) (pos : Pos) :
    (update_dispatch kb pos 'G').gold_cell = some pos := by
  unfold update_dispatch
  rw [if_neg (by decide), if_neg (by decide), if_neg (by decide), if_neg (by decide),
    if_pos rfl]

theorem update_dispatch_G_conf (kb : PropositionalKB) (pos : Pos) :
    (update_dispatch kb pos 'G').cell_confidence = kb.cell_confidence := by
  unfold update_dispatch
  rw [if_neg (by decide), if_neg (by decide), if_neg (by decide), if_neg (by decide),
    if_pos rfl]
  show ((kb.add_fact (Fact.glitter pos)).add_fact
    (Fact.gold pos)).cell_confidence = kb.cell_confidence
  rw [add_fact_conf, add_fact_conf]

theorem update_dispatch_G_facts (kb : PropositionalKB) (pos : Pos) :
    (update_dispatch kb pos 'G').facts =
      ((kb.add_fact (Fact.glitter pos)).add_fact (Fact.gold pos)).facts := by
  unfold update_dispatch
  rw [if_neg (by decide), if_neg (by decide), if_neg (by decide), if_neg (by decide),
    if_pos rfl]

theorem update_knowledge_base_conf (kb : PropositionalKB) (pos : Pos)
    (percepts : List String) :
    (kb.update_knowledge_base pos percepts).cell_confidence =
      (update_dispatch kb pos (classify_percepts percepts)).cell_confidence := by
  show ((update_dispatch kb pos (classify_percepts percepts)).add_fact
    (Fact.visited pos)).cell_confidence = _
  rw [add_fact_conf]

theorem update_knowledge_base_gold (kb : PropositionalKB) (pos : Pos)
    (percepts : List String) :
    (kb.update_knowledge_base pos percepts).gold_cell =
      (update_dispatch kb pos (classify_percepts percepts)).gold_cell := by
  show ((update_dispatch kb pos (classify_percepts percepts)).add_fact
    (Fact.visited pos)).gold_cell = _
  rw [add_fact_gold]

theorem query_eq_true_iff (kb : PropositionalKB) (f : Fact) :
    kb.query f = true ↔ f ∈ kb.facts := by
  simp [query]

/-- After any update, the updated cell's playing-grid entry is the
visited marker `"1"`: the shared tail of `update_knowledge_base` writes
`"1"` over whatever the case handler wrote (including the `"99"`
treasure marker), and the recomputation keeps `"1"` because `Visited`
has just been recorded. -/
theorem update_knowledge_base_grid_self (kb : PropositionalKB) (pos : Pos)
    (percepts : List String) :
    (kb.update_knowledge_base pos percepts).playing_grid pos = "1" := by
  set kb1 := update_dispatch kb pos (classify_percepts percepts) with hkb1
  set kb3 : PropositionalKB :=
    { kb1.add_fact (Fact.visited pos) with
      playing_grid := gridWrite (kb1.add_fact (Fact.visited pos)).playing_grid pos "1" }
    with hkb3
  have hres : kb.update_knowledge_base pos percepts =
      (forward_chain kb3).update_playing_grid_from_kb := rfl
  rw [hres]
  have hvis : Fact.visited pos ∈ (forward_chain kb3).facts :=
    forward_chain_facts_subset kb3 (mem_add_fact_self kb1 (Fact.visited pos))
  have hq : (forward_chain kb3).query (Fact.visited pos) = true :=
    (query_eq_true_iff _ _).mpr hvis
  have hstat : cell_status (forward_chain kb3) pos = some "1" := by
    unfold cell_status
    rw [hq]
    simp
  have hgridw : (forward_chain kb3).playing_grid pos = "1" := by
    show gridWrite (kb1.add_fact (Fact.visited pos)).playing_grid pos "1" pos = "1"
    unfold gridWrite
    rw [if_pos rfl]
  show (if 0 ≤ pos.1 ∧ pos.1 < (forward_chain kb3).grid_size ∧ 0 ≤ pos.2 ∧
      pos.2 < (forward_chain kb3).grid_size then
      (cell_status (forward_chain kb3) pos).getD ((forward_chain kb3).playing_grid pos)
    else (forward_chain kb3).playing_grid pos) = "1"
  split
  · rw [hstat]
    rfl
  · exact hgridw

theorem mem_add_fact_of_ne {kb : PropositionalKB} {f x : Fact} (hne : x ≠ f)
    (hmem : x ∈ (kb.add_fact f).facts) : x ∈ kb.facts := by
  rcases (mem_add_fact _ _ _).mp hmem with h | h
  · exact h
  · exact absurd h hne

theorem forward_chain_aux_nonconclusion_mem (rules : List (Premise × Fact))
    (hr : RulesSafe rules) (fuel : Nat) (facts : List Fact) (f : Fact)
    (hf : conclusionSafeOnly f = false)
    (hmem : f ∈ forward_chain_aux rules fuel facts) : f ∈ facts := by
  rcases forward_chain_aux_new_mem rules fuel facts _ hmem with h | h
  · exact h
  · exfalso
    rcases List.mem_map.mp h with ⟨r, hrmem, hrq⟩
    have hconc := hr r hrmem
    rw [hrq, hf] at hconc
    exact Bool.false_ne_true hconc

end PropositionalKB

open PropositionalKB in
/-- C9 counterexample.  The claim says the treasure-signal update leaves
a terminal marker (`"99"` in the source) at the gold cell, but the
shared tail of `update_knowledge_base` overwrites it with the visited
marker `"1"` in the same call: after `update((2,2), [Glitter])` the cell
reads `"1"`, not `"99"`. -/
theorem C9_counterexample :
    (update_knowledge_base (resetKB 3) (2, 2) ["Glitter"]).gold_cell = some (2, 2) ∧
    (update_knowledge_base (resetKB 3) (2, 2) ["Glitter"]).playing_grid (2, 2) = "1" ∧
    ("1" : String) ≠ "99" :=
  ⟨by rfl, by rfl, by decide⟩

open PropositionalKB in
/-- C9 (amended).  Treasure-signal effect and frame: an update whose
percept set contains the treasure signal records the treasure position
in `gold_cell` and changes no cell's threat confidence for either
threat kind; the cell's playing-grid entry after the update is the
visited marker `"1"` — the `"99"` terminal marker is written by the
handler but immediately overwritten (`C9_counterexample`). -/
theorem C9_treasure_signal_amended (kb : PropositionalKB) (pos : Pos)
    (percepts : List String) (hg : "Glitter" ∈ percepts) :
    (kb.update_knowledge_base pos percepts).gold_cell = some pos ∧
    (kb.update_knowledge_base pos percepts).playing_grid pos = "1" ∧
    ∀ (q : Pos) (t : Threat),
      (kb.update_knowledge_base pos percepts).get_confidence q t =
        kb.get_confidence q t := by
  refine ⟨?_, update_knowledge_base_grid_self kb pos percepts, ?_⟩
  · rw [update_knowledge_base_gold, classify_percepts_glitter percepts hg,
      update_dispatch_G_gold]
  · intro q t
    show (kb.update_knowledge_base pos percepts).cell_confidence q t =
      kb.cell_confidence q t
    rw [update_knowledge_base_conf, classify_percepts_glitter percepts hg,
      update_dispatch_G_conf]

open PropositionalKB in
/-- Witness for `C9_treasure_signal_amended` on a concrete store. -/
theorem C9_treasure_signal_witness :
    (update_knowledge_base (resetKB 3) (2, 2) ["Glitter"]).gold_cell = some (2, 2) ∧
    (update_knowledge_base (resetKB 3) (2, 2) ["Glitter"]).get_confidence (1, 0) .pit =
      (resetKB 3).get_confidence (1, 0) .pit :=
  ⟨(C9_treasure_signal_amended (resetKB 3) (2, 2) ["Glitter"] (by decide)).1,
   (C9_treasure_signal_amended (resetKB 3) (2, 2) ["Glitter"] (by decide)).2.2 (1, 0) .pit⟩

open PropositionalKB in
/-- C10.  Treasure-signal precedence: for every percept list containing
the treasure signal, the update is classified as the treasure case even
when `"Breeze"`/`"Stench"` are present too — the danger signals are
ignored entirely: no threat confidence changes, and no
`Breeze`/`Stench`/`PossiblePit`/`PossibleWumpus`/`DefinitePit`/
`DefiniteWumpus` fact is newly added (with the program's rule set, whose
conclusions are only `NoPit`/`NoWumpus`/`Safe`). -/
theorem C10_treasure_precedence (kb : PropositionalKB) (pos : Pos)
    (percepts : List String) (hg : "Glitter" ∈ percepts) (hr : RulesSafe kb.rules) :
    (∀ (q : Pos) (t : Threat),
      (kb.update_knowledge_base pos percepts).get_confidence q t =
        kb.get_confidence q t) ∧
    (∀ q : Pos, Fact.breeze q ∈ (kb.update_knowledge_base pos percepts).facts →
      Fact.breeze q ∈ kb.facts) ∧
    (∀ q : Pos, Fact.stench q ∈ (kb.update_knowledge_base pos percepts).facts →
      Fact.stench q ∈ kb.facts) ∧
    (∀ q : Pos, Fact.possiblePit q ∈ (kb.update_knowledge_base pos percepts).facts →
      Fact.possiblePit q ∈ kb.facts) ∧
    (∀ q : Pos, Fact.possibleWumpus q ∈ (kb.update_knowledge_base pos percepts).facts →
      Fact.possibleWumpus q ∈ kb.facts) ∧
    (∀ q : Pos, Fact.definitePit q ∈ (kb.update_knowledge_base pos percepts).facts →
      Fact.definitePit q ∈ kb.facts) ∧
    (∀ q : Pos, Fact.definiteWumpus q ∈ (kb.update_knowledge_base pos percepts).facts →
      Fact.definiteWumpus q ∈ kb.facts) := by
  have key : ∀ f : Fact, conclusionSafeOnly f = false →
      f ≠ Fact.visited pos → f ≠ Fact.gold pos → f ≠ Fact.glitter pos →
      f ∈ (kb.update_knowledge_base pos percepts).facts → f ∈ kb.facts := by
    intro f hcf hne1 hne2 hne3 hmem
    rw [update_knowledge_base_facts] at hmem
    have h2 := forward_chain_aux_nonconclusion_mem kb.rules hr _ _ f hcf hmem
    have h3 := mem_add_fact_of_ne hne1 h2
    rw [classify_percepts_glitter percepts hg, update_dispatch_G_facts] at h3
    exact mem_add_fact_of_ne hne3 (mem_add_fact_of_ne hne2 h3)
  refine ⟨?_, fun q => key _ rfl (by simp) (by simp) (by simp),
    fun q => key _ rfl (by simp) (by simp) (by simp),
    fun q => key _ rfl (by simp) (by simp) (by simp),
    fun q => key _ rfl (by simp) (by simp) (by simp),
    fun q => key _ rfl (by simp) (by simp) (by simp),
    fun q => key _ rfl (by simp) (by simp) (by simp)⟩
  intro q t
  show (kb.update_knowledge_base pos percepts).cell_confidence q t =
    kb.cell_confidence q t
  rw [update_knowledge_base_conf, classify_percepts_glitter percepts hg,
    update_dispatch_G_conf]

open PropositionalKB in
/-- Witness for `C10_treasure_precedence`: a percept list carrying both
the treasure signal and a danger signal, on a concrete store. -/
theorem C10_treasure_precedence_witness :
    (update_knowledge_base (resetKB 3) (0, 0) ["Glitter", "Breeze"]).get_confidence
      (1, 0) .pit = (resetKB 3).get_confidence (1, 0) .pit :=
  (C10_treasure_precedence (resetKB 3) (0, 0) ["Glitter", "Breeze"] (by decide)
    (rulesSafe_resetKB 3)).1 (1, 0) .pit

/-! ### Claim C3: single-suspect elimination -/

namespace PropositionalKB

theorem query_add_fact_of_ne (kb : PropositionalKB) (f g : Fact) (hne : g ≠ f) :
    (kb.add_fact f).query g = kb.query g := by
  unfold query
  rw [decide_eq_decide]
  rw [mem_add_fact]
  simp [hne]

/-- The elimination branches of `_process_breeze`/`_process_stench`:
with no confirmed neighbour, no `0.5` suspect other than possibly the
single unvisited neighbour itself, and exactly one unvisited neighbour,
that neighbour is promoted to confidence `1.0`. -/
theorem process_signal_single_unvisited (kb : PropositionalKB) (t : Threat)
    (pos u : Pos)
    (hunv : (get_adjacent_cells kb.grid_size pos).filter
      (fun q => !(kb.query (.visited q))) = [u])
    (hnodef : (get_adjacent_cells kb.grid_size pos).filter
      (fun q => kb.get_confidence q t = 1) = [])
    (hposs : (get_adjacent_cells kb.grid_size pos).filter
        (fun q => kb.get_confidence q t = mkRat 1 2) = [] ∨
      (get_adjacent_cells kb.grid_size pos).filter
        (fun q => kb.get_confidence q t = mkRat 1 2) = [u]) :
    (process_signal kb t pos).get_confidence u t = 1 := by
  simp only [process_signal]
  rw [hunv, hnodef]
  simp only [List.isEmpty_nil, Bool.not_false, Bool.not_true]
  rw [if_neg (by decide)]
  have hend : ∀ kb2 : PropositionalKB,
      ((kb2.set_confidence u t 1).add_fact (t.definiteFact u)).get_confidence u t = 1 := by
    intro kb2
    show ((kb2.set_confidence u t 1).add_fact (t.definiteFact u)).cell_confidence u t = 1
    rw [add_fact_conf]
    show (if u = u ∧ t = t then (1 : Rat) else kb2.cell_confidence u t) = 1
    rw [if_pos ⟨rfl, rfl⟩]
  rcases hposs with hposs | hposs
  · rw [hposs]
    rw [if_neg (by decide)]
    rw [if_pos (show ([u] : List Pos).length = 1 from rfl)]
    exact hend kb
  · rw [hposs]
    rw [if_pos (show ([u] : List Pos).length = 1 from rfl)]
    exact hend kb

theorem update_dispatch_B_conf (kb : PropositionalKB) (pos : Pos) :
    (update_dispatch kb pos 'B').cell_confidence =
      (process_signal ((kb.add_fact (.breeze pos)).add_fact (.noStench pos)) .pit
        pos).cell_confidence := by
  unfold update_dispatch
  rw [if_neg (by decide), if_pos rfl]
  rfl

theorem update_dispatch_S_conf (kb : PropositionalKB) (pos : Pos) :
    (update_dispatch kb pos 'S').cell_confidence =
      (process_signal ((kb.add_fact (.stench pos)).add_fact (.noBreeze pos)) .wumpus
        pos).cell_confidence := by
  unfold update_dispatch
  rw [if_neg (by decide), if_neg (by decide), if_pos rfl]
  rfl

/-- Transfer of the C3 side conditions across the two `add_fact` calls
that precede the signal handler inside `update_knowledge_base`. -/
theorem process_signal_after_adds (kb : PropositionalKB) (t : Threat)
    (f1 f2 : Fact) (hf1 : ∀ q : Pos, Fact.visited q ≠ f1)
    (hf2 : ∀ q : Pos, Fact.visited q ≠ f2) (pos u : Pos)
    (hunv : (get_adjacent_cells kb.grid_size pos).filter
      (fun q => !(kb.query (.visited q))) = [u])
    (hnodef : (get_adjacent_cells kb.grid_size pos).filter
      (fun q => kb.get_confidence q t = 1) = [])
    (hposs : (get_adjacent_cells kb.grid_size pos).filter
        (fun q => kb.get_confidence q t = mkRat 1 2) = [] ∨
      (get_adjacent_cells kb.grid_size pos).filter
        (fun q => kb.get_confidence q t = mkRat 1 2) = [u]) :
    (process_signal ((kb.add_fact f1).add_fact f2) t pos).get_confidence u t = 1 := by
  have hgs : ((kb.add_fact f1).add_fact f2).grid_size = kb.grid_size := by
    rw [add_fact_grid_size, add_fact_grid_size]
  have hconf : ((kb.add_fact f1).add_fact f2).cell_confidence = kb.cell_confidence := by
    rw [add_fact_conf, add_fact_conf]
  refine process_signal_single_unvisited _ t pos u ?_ ?_ ?_
  · rw [hgs]
    rw [List.filter_congr ?_]
    · exact hunv
    · intro q _
      rw [query_add_fact_of_ne _ _ _ (hf2 q), query_add_fact_of_ne _ _ _ (hf1 q)]
  · rw [hgs]
    rw [List.filter_congr ?_]
    · exact hnodef
    · intro q _
      show decide (((kb.add_fact f1).add_fact f2).cell_confidence q t = 1) = _
      rw [hconf]
      rfl
  · rw [hgs]
    rw [List.filter_congr ?_]
    · exact hposs
    · intro q _
      show decide (((kb.add_fact f1).add_fact f2).cell_confidence q t = mkRat 1 2) = _
      rw [hconf]
      rfl

end PropositionalKB

open PropositionalKB in
/-- C3 counterexample.  The claim triggers elimination when exactly one
neighbour is "unvisited and not already proven safe", but the code's
elimination branch counts *all* unvisited neighbours, safe ones
included.  After `update((1,2), [])` (which proves `(1,1)` and `(2,2)`
safe), the cell `(2,1)` has exactly one unvisited-and-not-safe
neighbour, `(2,0)`; yet `update((2,1), [Breeze])` leaves that
neighbour at confidence `0.5`, not `1.0`. -/
theorem C3_counterexample :
    ((get_adjacent_cells 3 (2, 1)).filter fun q =>
        (!((update_knowledge_base (resetKB 3) (1, 2) []).query (.visited q))) &&
        (!((update_knowledge_base (resetKB 3) (1, 2) []).query (.safe q)))) = [(2, 0)] ∧
    (update_knowledge_base (update_knowledge_base (resetKB 3) (1, 2) []) (2, 1)
      ["Breeze"]).get_confidence (2, 0) .pit = mkRat 1 2 ∧ (mkRat 1 2 : Rat) ≠ 1 :=
  ⟨by rfl, by rfl, by decide⟩

open PropositionalKB in
/-- C3 (amended).  Single-suspect elimination as the code implements it:
after a single-signal update (breeze-only, threat `pit`, or
stench-only, threat `wumpus`) at a cell with exactly one *unvisited*
neighbour (proven-safe unvisited neighbours are still counted), no
neighbour already confirmed at confidence `1.0` for that threat, and no
`0.5` suspect among the neighbours other than possibly that unvisited
neighbour itself, the unvisited neighbour's confidence for the threat
becomes `1.0`. -/
theorem C3_single_suspect_amended (kb : PropositionalKB) (pos u : Pos) (t : Threat)
    (percepts : List String)
    (hclass : (classify_percepts percepts = 'B' ∧ t = .pit) ∨
      (classify_percepts percepts = 'S' ∧ t = .wumpus))
    (hunv : (get_adjacent_cells kb.grid_size pos).filter
      (fun q => !(kb.query (.visited q))) = [u])
    (hnodef : (get_adjacent_cells kb.grid_size pos).filter
      (fun q => kb.get_confidence q t = 1) = [])
    (hposs : (get_adjacent_cells kb.grid_size pos).filter
        (fun q => kb.get_confidence q t = mkRat 1 2) = [] ∨
      (get_adjacent_cells kb.grid_size pos).filter
        (fun q => kb.get_confidence q t = mkRat 1 2) = [u]) :
    (kb.update_knowledge_base pos percepts).get_confidence u t = 1 := by
  show (kb.update_knowledge_base pos percepts).cell_confidence u t = 1
  rw [update_knowledge_base_conf]
  rcases hclass with ⟨hcl, rfl⟩ | ⟨hcl, rfl⟩
  · rw [hcl, update_dispatch_B_conf]
    exact process_signal_after_adds kb .pit (Fact.breeze pos) (Fact.noStench pos)
      (fun q => by simp) (fun q => by simp) pos u hunv hnodef hposs
  · rw [hcl, update_dispatch_S_conf]
    exact process_signal_after_adds kb .wumpus (Fact.stench pos) (Fact.noBreeze pos)
      (fun q => by simp) (fun q => by simp) pos u hunv hnodef hposs

open PropositionalKB in
/-- Witness for `C3_single_suspect_amended`: after visiting `(1,1)`, the
cell `(0,1)` has exactly one unvisited neighbour `(0,2)`; a breeze there
confirms it as the pit. -/
theorem C3_single_suspect_witness :
    (update_knowledge_base (update_knowledge_base (resetKB 3) (1, 1) []) (0, 1)
      ["Breeze"]).get_confidence (0, 2) .pit = 1 :=
  C3_single_suspect_amended (update_knowledge_base (resetKB 3) (1, 1) []) (0, 1)
    (0, 2) .pit ["Breeze"] (Or.inl ⟨by rfl, rfl⟩) (by rfl) (by rfl) (Or.inl (by rfl))

/-! ### Claim C8: the path-to-exit search -/

namespace InferenceEngine

open PropositionalKB

/-- Manhattan distance to the origin `(0,0)`. -/
def manhattan (p : Pos) : Nat :=
  p.1.natAbs + p.2.natAbs

/-- The cell reached from `p` by one of the engine's move strings. -/
def moveTarget (p : Pos) : String → Pos
  | "MOVE_LEFT" => (p.1 - 1, p.2)
  | "MOVE_RIGHT" => (p.1 + 1, p.2)
  | "MOVE_UP" => (p.1, p.2 - 1)
  | "MOVE_DOWN" => (p.1, p.2 + 1)
  | _ => p

/-- A formalisation of the claim's precondition "a fully safe route back
to `(0,0)` through previously visited, zero-confidence cells": every
cell on the route is visited with both confidences `0.0`, consecutive
cells are in-bounds orthogonal neighbours, and the route ends at the
origin. -/
def isSafeVisitedRoute (kb : PropositionalKB) : List Pos → Bool
  | [] => false
  | [p] => decide (p = ((0, 0) : Pos)) && kb.query (.visited p) &&
      decide (kb.get_confidence p .pit = 0) && decide (kb.get_confidence p .wumpus = 0)
  | p :: q :: rest =>
      kb.query (.visited p) && decide (kb.get_confidence p .pit = 0) &&
      decide (kb.get_confidence p .wumpus = 0) &&
      decide (q ∈ get_adjacent_cells kb.grid_size p) &&
      isSafeVisitedRoute kb (q :: rest)

/-- The knowledge base of the C8 counterexample, built through the
public interface: a 3×3 episode in which the right-hand column and the
middle row back to the origin are visited and clear, `(1,0)` is a
confirmed pit, and the treasure has been located at `(2,2)`. -/
def kbC8 : PropositionalKB :=
  ((((((resetKB 3).add_fact (.visited (2, 0))).add_fact (.visited (2, 1))).add_fact
    (.visited (1, 1))).add_fact (.visited (0, 1))).set_confidence (1, 0) .pit
    1).set_gold_found (2, 2)

end InferenceEngine

open PropositionalKB InferenceEngine in
/-- C8 counterexample.  With the treasure located, the agent at `(2,0)`
away from the origin, and a fully safe visited route
`(2,0) → (2,1) → (1,1) → (0,1) → (0,0)` available, `_find_path_to_exit`
still returns no step: it only probes the single axis neighbour toward
the origin (`(1,0)`, here a confirmed pit) and, with `y = 0`, has no
second candidate. -/
theorem C8_counterexample :
    kbC8.gold_cell.isSome = true ∧ ((2, 0) : Pos) ≠ (0, 0) ∧
    isSafeVisitedRoute kbC8 [(2, 0), (2, 1), (1, 1), (0, 1), (0, 0)] = true ∧
    find_path_to_exit kbC8 (2, 0) = none :=
  ⟨by rfl, by decide, by rfl, by rfl⟩

open PropositionalKB InferenceEngine in
/-- C8 (amended).  Exit-search first-step behaviour as the code
implements it: `_find_path_to_exit` only inspects the immediate axis
neighbour toward the origin (x first, then y), so a step is guaranteed
only when one of those two cells passes `_is_safe_to_move` — a fully
safe longer route does not suffice (`C8_counterexample`); and every
direction it returns strictly decreases the Manhattan distance to
`(0,0)`. -/
theorem C8_exit_search_amended (kb : PropositionalKB) (x y : Int)
    (hx : 0 ≤ x) (hy : 0 ≤ y) :
    (∀ d, find_path_to_exit kb (x, y) = some d →
      manhattan (moveTarget (x, y) d) < manhattan (x, y)) ∧
    (0 < x → is_safe_to_move kb (x - 1, y) = true →
      find_path_to_exit kb (x, y) = some "MOVE_LEFT") ∧
    (0 < x → is_safe_to_move kb (x - 1, y) = false → 0 < y →
      is_safe_to_move kb (x, y - 1) = true →
      find_path_to_exit kb (x, y) = some "MOVE_UP") ∧
    (x = 0 → 0 < y → is_safe_to_move kb (x, y - 1) = true →
      find_path_to_exit kb (x, y) = some "MOVE_UP") := by
  refine ⟨?_, ?_, ?_, ?_⟩
  · intro d
    simp only [find_path_to_exit]
    split_ifs with h1 h2 h3 h4 h5 h6 h7 h8 h9 h10 h11 h12
    all_goals intro hd
    all_goals first
      | (rw [Option.some_inj] at hd
         subst hd
         simp only [manhattan, moveTarget]
         omega)
      | exact absurd hd (by simp)
  · intro hx0 hsafe
    simp only [find_path_to_exit]
    rw [if_pos hx0, if_pos hsafe]
  · intro hx0 hnosafe hy0 hsafe
    simp only [find_path_to_exit]
    rw [if_pos hx0, if_neg (by rw [hnosafe]; exact Bool.false_ne_true),
      if_pos hy0, if_pos hsafe]
  · intro hx0 hy0 hsafe
    subst hx0
    simp only [find_path_to_exit]
    rw [if_neg (by omega), if_neg (by omega), if_pos hy0, if_pos hsafe]

open PropositionalKB InferenceEngine in
/-- Witness for `C8_exit_search_amended`: from `(1,0)` on a fresh board
the origin neighbour is visited-safe, the search returns `MOVE_LEFT`,
and that move strictly decreases the Manhattan distance. -/
theorem C8_exit_search_witness :
    find_path_to_exit (resetKB 3) (1, 0) = some "MOVE_LEFT" ∧
    manhattan (moveTarget (1, 0) "MOVE_LEFT") < manhattan (1, 0) :=
  ⟨(C8_exit_search_amended (resetKB 3) 1 0 (by decide) (by decide)).2.1 (by decide)
      (by rfl),
   (C8_exit_search_amended (resetKB 3) 1 0 (by decide) (by decide)).1 "MOVE_LEFT"
     ((C8_exit_search_amended (resetKB 3) 1 0 (by decide) (by decide)).2.1 (by decide)
       (by rfl))⟩

/-! ### Selection lemmas for the decision policy -/

namespace InferenceEngine

open PropositionalKB

theorem select_best_exploration_cell_err (a b : Pos) (rest : List Pos) :
    select_best_exploration_cell (a :: b :: rest) = .error .attributeError := rfl

theorem select_best_exploration_cell_mem {l : List Pos} {r : Pos}
    (h : select_best_exploration_cell l = .ok (some r)) : r ∈ l := by
  match l with
  | [] => simp [select_best_exploration_cell] at h
  | [c] =>
      simp only [select_best_exploration_cell, Except.ok.injEq, Option.some.injEq] at h
      rw [← h]
      exact List.mem_cons_self c []
  | a :: b :: rest =>
      rw [select_best_exploration_cell_err] at h
      exact absurd h (by simp)

theorem select_best_exploration_cell_ne_none {l : List Pos} (hne : l ≠ []) :
    select_best_exploration_cell l ≠ .ok none := by
  match l with
  | [] => exact absurd rfl hne
  | [c] => simp [select_best_exploration_cell]
  | a :: b :: rest =>
      rw [select_best_exploration_cell_err]
      simp

theorem backtrack_fold_mem (kb : PropositionalKB) (l : List Pos) :
    ∀ c, ((l.foldl
        (fun (acc : Option Pos × WithTop Nat) cell =>
          let dist := distance_to_nearest_unvisited kb cell
          if dist < acc.2 then (some cell, dist) else acc)
        ((none : Option Pos), (⊤ : WithTop Nat))).1 = some c) → c ∈ l := by
  refine foldl_invariant _
    (fun (acc : Option Pos × WithTop Nat) => ∀ c, acc.1 = some c → c ∈ l) l
    ((none : Option Pos), (⊤ : WithTop Nat)) ?_ ?_
  · intro c hc
    exact absurd hc (by simp)
  · intro acc x hx hacc c hc
    dsimp only at hc
    by_cases hlt : distance_to_nearest_unvisited kb x < acc.2
    · rw [if_pos hlt] at hc
      have hxc : x = c := Option.some_inj.mp hc
      rw [← hxc]
      exact hx
    · rw [if_neg hlt] at hc
      exact hacc c hc

theorem select_best_backtrack_cell_mem {kb : PropositionalKB} {l : List Pos} {r : Pos}
    (h : select_best_backtrack_cell kb l = some r) : r ∈ l := by
  match l with
  | [] => simp [select_best_backtrack_cell] at h
  | [c] =>
      simp only [select_best_backtrack_cell, Option.some.injEq] at h
      rw [← h]
      exact List.mem_cons_self c []
  | a :: b :: rest =>
      simp only [select_best_backtrack_cell] at h
      split at h
      · rename_i c hc
        rw [Option.some_inj] at h
        rw [← h]
        exact backtrack_fold_mem kb (a :: b :: rest) c hc
      · simp only [List.head?_cons, Option.some.injEq] at h
        rw [← h]
        exact List.mem_cons_self a (b :: rest)

theorem select_best_backtrack_cell_ne_none {kb : PropositionalKB} {l : List Pos}
    (hne : l ≠ []) : select_best_backtrack_cell kb l ≠ none := by
  match l with
  | [] => exact absurd rfl hne
  | [c] => simp [select_best_backtrack_cell]
  | a :: b :: rest =>
      simp only [select_best_backtrack_cell]
      split
      · simp
      · simp

theorem select_best_cell_from_group_ne_none {kb : PropositionalKB}
    {pick : List Pos → Pos} {l : List Pos} (hne : l ≠ []) (cp : Pos) (s : Int) :
    select_best_cell_from_group kb pick l cp s ≠ .ok none := by
  match l with
  | [] => exact absurd rfl hne
  | [c] => simp [select_best_cell_from_group]
  | a :: b :: rest =>
      simp only [select_best_cell_from_group]
      split
      · split
        · rename_i hunv
          refine select_best_exploration_cell_ne_none ?_
          simp only [Bool.not_eq_true'] at hunv
          intro hnil
          rw [hnil] at hunv
          simp at hunv
        · intro h
          rw [Except.ok.injEq] at h
          exact select_best_backtrack_cell_ne_none (by simp) h
      · split
        · rename_i hunv
          refine select_best_exploration_cell_ne_none ?_
          simp only [Bool.not_eq_true'] at hunv
          intro hnil
          rw [hnil] at hunv
          simp at hunv
        · simp

theorem select_best_cell_from_group_mem {kb : PropositionalKB}
    {pick : List Pos → Pos} {l : List Pos} {cp : Pos} {s : Int} {r : Pos}
    (hpick : ∀ l2 : List Pos, l2 ≠ [] → pick l2 ∈ l2)
    (h : select_best_cell_from_group kb pick l cp s = .ok (some r)) : r ∈ l := by
  match l with
  | [] => simp [select_best_cell_from_group] at h
  | [c] =>
      simp only [select_best_cell_from_group, Except.ok.injEq, Option.some.injEq] at h
      rw [← h]
      exact List.mem_cons_self c []
  | a :: b :: rest =>
      simp only [select_best_cell_from_group] at h
      split at h
      · split at h
        · exact List.mem_of_mem_filter (select_best_exploration_cell_mem h)
        · rw [Except.ok.injEq] at h
          exact select_best_backtrack_cell_mem h
      · split at h
        · exact List.mem_of_mem_filter (select_best_exploration_cell_mem h)
        · rw [Except.ok.injEq, Option.some.injEq] at h
          rw [← h]
          exact hpick _ (by simp)

theorem would_create_loop_of_count {hist : List Pos} {B : Pos}
    (hlen : 4 ≤ hist.length)
    (hcount : 2 ≤ (hist.drop (hist.length - 4)).count B) :
    would_create_loop hist B = true := by
  unfold would_create_loop
  rw [if_neg (by omega), if_pos hcount]

/-! ### Stable descending sort: membership and head maximality -/

theorem mem_insertDesc (o x : Pos × Int) (l : List (Pos × Int)) :
    x ∈ insertDesc o l ↔ x = o ∨ x ∈ l := by
  induction l with
  | nil => simp [insertDesc]
  | cons b bs ih =>
      unfold insertDesc
      split
      · rw [List.mem_cons, ih, List.mem_cons]
        tauto
      · simp only [List.mem_cons]

theorem sort_fold_mem (x : Pos × Int) :
    ∀ (l acc : List (Pos × Int)),
      (x ∈ l.foldl (fun acc o => insertDesc o acc) acc ↔ x ∈ acc ∨ x ∈ l) := by
  intro l
  induction l with
  | nil =>
      intro acc
      simp
  | cons a l2 ih =>
      intro acc
      rw [List.foldl_cons, ih, mem_insertDesc, List.mem_cons]
      tauto

theorem mem_sortByScoreDesc (x : Pos × Int) (l : List (Pos × Int)) :
    x ∈ sortByScoreDesc l ↔ x ∈ l := by
  unfold sortByScoreDesc
  rw [sort_fold_mem]
  simp

/-- The head of a descending-sorted option list bounds every element. -/
def HeadLe (l : List (Pos × Int)) : Prop :=
  ∀ h t, l = h :: t → ∀ x ∈ l, x.2 ≤ h.2

theorem headLe_insertDesc (o : Pos × Int) (l : List (Pos × Int)) (hl : HeadLe l) :
    HeadLe (insertDesc o l) := by
  match l with
  | [] =>
      intro h t heq x hx
      rw [show insertDesc o [] = [o] from rfl] at heq hx
      injection heq with h1 _
      subst h1
      rw [List.mem_singleton.mp hx]
  | b :: bs =>
      have hform : insertDesc o (b :: bs) =
          if o.2 ≤ b.2 then b :: insertDesc o bs else o :: b :: bs := rfl
      by_cases hle : o.2 ≤ b.2
      · intro h t heq x hx
        rw [hform, if_pos hle] at heq hx
        injection heq with h1 _
        subst h1
        rcases List.mem_cons.mp hx with rfl | hx2
        · exact le_refl _
        · rcases (mem_insertDesc o x bs).mp hx2 with rfl | hx3
          · exact hle
          · exact hl b bs rfl x (List.mem_cons_of_mem b hx3)
      · intro h t heq x hx
        rw [hform, if_neg hle] at heq hx
        injection heq with h1 _
        subst h1
        rcases List.mem_cons.mp hx with rfl | hx2
        · exact le_refl _
        · have hb : x.2 ≤ b.2 := hl b bs rfl x hx2
          omega

theorem headLe_sortByScoreDesc (l : List (Pos × Int)) : HeadLe (sortByScoreDesc l) := by
  unfold sortByScoreDesc
  refine foldl_invariant _ HeadLe l [] ?_ ?_
  · intro h t heq
    exact absurd heq (by simp)
  · intro acc o _ hacc
    exact headLe_insertDesc o acc hacc

end InferenceEngine

open PropositionalKB InferenceEngine in
/-- C7.  Loop exclusion: a neighbour that occurred at least twice within
the last four entries of the move history is loop-flagged and excluded
from the preferred safety tier; when an equally-scored non-flagged
neighbour of that top tier exists, the selected cell is never the
flagged one (whatever `random.choice` does). -/
theorem C7_loop_exclusion (kb : PropositionalKB) (hist : List Pos)
    (pick : List Pos → Pos) (pos B C : Pos)
    (hpick : ∀ l : List Pos, l ≠ [] → pick l ∈ l)
    (hlen : 4 ≤ hist.length)
    (hcount : 2 ≤ (hist.drop (hist.length - 4)).count B)
    (hCadj : C ∈ get_adjacent_cells kb.grid_size pos)
    (_hCB : C ≠ B)
    (hscore : calculate_safety_score kb C = calculate_safety_score kb B)
    (htop : ∀ a ∈ get_adjacent_cells kb.grid_size pos,
      calculate_safety_score kb a ≤ calculate_safety_score kb B)
    (hCnoloop : would_create_loop hist C = false) :
    ∀ r, choose_next_move_with_efficient_search kb hist pick pos = .ok (some r) →
      r ≠ B := by
  intro r hr
  have hBloop : would_create_loop hist B = true := would_create_loop_of_count hlen hcount
  have hCopt : ((C, calculate_safety_score kb C) : Pos × Int) ∈
      sortByScoreDesc ((get_adjacent_cells kb.grid_size pos).map
        fun c => (c, calculate_safety_score kb c)) :=
    (mem_sortByScoreDesc _ _).mpr
      (List.mem_map_of_mem (fun c => (c, calculate_safety_score kb c)) hCadj)
  obtain ⟨h0, t0, hsorted⟩ : ∃ h0 t0,
      sortByScoreDesc ((get_adjacent_cells kb.grid_size pos).map
        fun c => (c, calculate_safety_score kb c)) = h0 :: t0 := by
    rcases hs : sortByScoreDesc ((get_adjacent_cells kb.grid_size pos).map
        fun c => (c, calculate_safety_score kb c)) with _ | ⟨h0, t0⟩
    · rw [hs] at hCopt
      exact absurd hCopt (by simp)
    · exact ⟨h0, t0, rfl⟩
  have hh0mem : h0 ∈ (get_adjacent_cells kb.grid_size pos).map
      fun c => (c, calculate_safety_score kb c) := by
    have : h0 ∈ sortByScoreDesc ((get_adjacent_cells kb.grid_size pos).map
        fun c => (c, calculate_safety_score kb c)) := by
      rw [hsorted]
      exact List.mem_cons_self h0 t0
    exact (mem_sortByScoreDesc _ _).mp this
  have hh0le : h0.2 ≤ calculate_safety_score kb B := by
    rcases List.mem_map.mp hh0mem with ⟨a, ha, heq⟩
    rw [← heq]
    exact htop a ha
  have hCle : calculate_safety_score kb C ≤ h0.2 := by
    have := headLe_sortByScoreDesc ((get_adjacent_cells kb.grid_size pos).map
      fun c => (c, calculate_safety_score kb c)) h0 t0 hsorted
      (C, calculate_safety_score kb C) hCopt
    exact this
  have hCsafest : h0.2 = calculate_safety_score kb C :=
    le_antisymm (hh0le.trans (le_of_eq hscore.symm)) hCle
  revert hr
  simp only [choose_next_move_with_efficient_search]
  rw [hsorted]
  intro hr
  have hCfil : C ∈ ((h0 :: t0).filter fun o => o.2 = h0.2).map Prod.fst := by
    refine List.mem_map.mpr ⟨(C, calculate_safety_score kb C), ?_, rfl⟩
    refine List.mem_filter.mpr ⟨hsorted ▸ hCopt, ?_⟩
    simp [hCsafest]
  have hCnl : C ∈ (((h0 :: t0).filter fun o => o.2 = h0.2).map Prod.fst).filter
      fun c => !(would_create_loop hist c) := by
    refine List.mem_filter.mpr ⟨hCfil, ?_⟩
    simp [hCnoloop]
  rw [if_pos (by
    simp only [Bool.not_eq_true']
    rw [List.isEmpty_eq_false]
    exact List.ne_nil_of_mem hCnl)] at hr
  have hrmem := select_best_cell_from_group_mem hpick hr
  have hrnoloop : would_create_loop hist r = false := by
    have h2 := (List.mem_filter.mp hrmem).2
    simp only [Bool.not_eq_true'] at h2
    exact h2
  intro hrB
  rw [hrB, hBloop] at hrnoloop
  exact absurd hrnoloop (by simp)

namespace InferenceEngine

open PropositionalKB

theorem headD_mem {l : List Pos} (h : l ≠ []) : l.headD (0, 0) ∈ l := by
  match l with
  | [] => exact absurd rfl h
  | a :: t => exact List.mem_cons_self a t

theorem fallthrough_ok_none {kb : PropositionalKB} {pick : List Pos → Pos}
    {safest_cells adj : List Pos} {cp : Pos} {s : Int}
    (h : (if !safest_cells.isEmpty then
        select_best_cell_from_group kb pick safest_cells cp s
      else if !adj.isEmpty then Except.ok (some (pick adj))
      else Except.ok none) = .ok none) :
    adj = [] := by
  split at h
  · exfalso
    rename_i hc
    refine select_best_cell_from_group_ne_none ?_ cp s h
    simp only [Bool.not_eq_true'] at hc
    intro hnil
    rw [hnil] at hc
    simp at hc
  · split at h
    · exact absurd h (by simp)
    · rename_i hc2
      simp only [Bool.not_eq_true', Bool.not_eq_false] at hc2
      rwa [List.isEmpty_iff] at hc2

/-- `_choose_next_move_with_efficient_search` answers "no cell" only
when the current position has no in-bounds neighbours at all: every
other exit of the cascade selects from a nonempty candidate group or
falls back to a random neighbour. -/
theorem choose_next_move_ok_none {kb : PropositionalKB} {hist : List Pos}
    {pick : List Pos → Pos} {pos : Pos}
    (h : choose_next_move_with_efficient_search kb hist pick pos = .ok none) :
    get_adjacent_cells kb.grid_size pos = [] := by
  revert h
  simp only [choose_next_move_with_efficient_search]
  intro h
  split at h
  · exfalso
    rename_i hc
    refine select_best_cell_from_group_ne_none ?_ _ _ h
    simp only [Bool.not_eq_true'] at hc
    intro hnil
    rw [hnil] at hc
    simp at hc
  · split at h
    · split at h
      · split at h
        · exfalso
          rename_i hc
          refine select_best_cell_from_group_ne_none ?_ _ _ h
          simp only [Bool.not_eq_true'] at hc
          intro hnil
          rw [hnil] at hc
          simp at hc
        · exact fallthrough_ok_none h
      · exact fallthrough_ok_none h
    · exact fallthrough_ok_none h

theorem get_direction_cases (a b : Pos) :
    get_direction a b = "UP" ∨ get_direction a b = "DOWN" ∨
    get_direction a b = "LEFT" ∨ get_direction a b = "RIGHT" ∨
    get_direction a b = "" := by
  unfold get_direction
  split_ifs <;> simp

theorem find_path_cases (kb : PropositionalKB) (p : Pos) (a : String)
    (h : find_path_to_exit kb p = some a) :
    a = "MOVE_LEFT" ∨ a = "MOVE_RIGHT" ∨ a = "MOVE_UP" ∨ a = "MOVE_DOWN" := by
  revert h
  simp only [find_path_to_exit]
  split_ifs <;> intro h <;> first
    | (rw [Option.some_inj] at h
       rw [← h]
       simp)
    | exact absurd h (by simp)

end InferenceEngine

open PropositionalKB InferenceEngine in
/-- C6.  Decision-cascade priority: `determine_next_action` returns
`GRAB` exactly when the percepts contain the treasure signal; otherwise,
when the treasure location is known, the position is off the origin and
the exit search yields a step, it returns that step; otherwise it
returns the exploration tail's result — the move toward the chosen cell,
or `STAY`, and `STAY` arises only when the position has no in-bounds
neighbour at all. -/
theorem C6_decision_cascade (kb : PropositionalKB) (hist : List Pos)
    (pick : List Pos → Pos) (pos : Pos) (percepts : List String) (gs : Int) :
    (determine_next_action kb hist pick pos percepts gs = .ok "GRAB" ↔
      "Glitter" ∈ percepts) ∧
    ("Glitter" ∉ percepts → kb.has_gold_location = true → pos ≠ (0, 0) →
      ∀ a, find_path_to_exit kb pos = some a →
        determine_next_action kb hist pick pos percepts gs = .ok a) ∧
    ("Glitter" ∉ percepts →
      (kb.has_gold_location = false ∨ pos = (0, 0) ∨ find_path_to_exit kb pos = none) →
      determine_next_action kb hist pick pos percepts gs =
        explore_step kb hist pick pos) ∧
    (∀ c, choose_next_move_with_efficient_search kb hist pick pos = .ok (some c) →
      explore_step kb hist pick pos = .ok ("MOVE_" ++ get_direction pos c)) ∧
    (choose_next_move_with_efficient_search kb hist pick pos = .ok none →
      explore_step kb hist pick pos = .ok "STAY") ∧
    (determine_next_action kb hist pick pos percepts gs = .ok "STAY" →
      get_adjacent_cells kb.grid_size pos = []) := by
  have hexp_some : ∀ c,
      choose_next_move_with_efficient_search kb hist pick pos = .ok (some c) →
      explore_step kb hist pick pos = .ok ("MOVE_" ++ get_direction pos c) := by
    intro c hc
    unfold explore_step
    rw [hc]
  have hexp_none :
      choose_next_move_with_efficient_search kb hist pick pos = .ok none →
      explore_step kb hist pick pos = .ok "STAY" := by
    intro hc
    unfold explore_step
    rw [hc]
  have hexp_not_grab : explore_step kb hist pick pos ≠ .ok "GRAB" := by
    unfold explore_step
    split
    · simp
    · simp
    · rename_i c _
      intro hcontra
      rw [Except.ok.injEq] at hcontra
      rcases get_direction_cases pos c with hd | hd | hd | hd | hd <;>
        (rw [hd] at hcontra; exact absurd hcontra (by decide))
  refine ⟨?_, ?_, ?_, hexp_some, hexp_none, ?_⟩
  · constructor
    · intro h
      by_contra hg
      simp only [determine_next_action] at h
      rw [if_neg hg] at h
      split at h
      · split at h
        · rename_i a ha
          rw [Except.ok.injEq] at h
          rcases find_path_cases kb pos a ha with hd | hd | hd | hd <;>
            (rw [hd] at h; exact absurd h (by decide))
        · exact hexp_not_grab h
      · exact hexp_not_grab h
    · intro hg
      simp only [determine_next_action]
      rw [if_pos hg]
  · intro hg hgold hne a ha
    simp only [determine_next_action]
    rw [if_neg hg, if_pos ⟨hgold, hne⟩, ha]
  · intro hg hfall
    simp only [determine_next_action]
    rw [if_neg hg]
    rcases hfall with hgf | hpe | hfn
    · rw [if_neg fun hcond => by rw [hgf] at hcond; exact absurd hcond.1 (by simp)]
    · exact if_neg fun hcond => hcond.2 hpe
    · by_cases hcond : kb.has_gold_location = true ∧ pos ≠ (0, 0)
      · rw [if_pos hcond, hfn]
      · rw [if_neg hcond]
  · intro h
    simp only [determine_next_action] at h
    by_cases hg : "Glitter" ∈ percepts
    · rw [if_pos hg, Except.ok.injEq] at h
      exact absurd h (by decide)
    · rw [if_neg hg] at h
      have hstay : explore_step kb hist pick pos = .ok "STAY" →
          get_adjacent_cells kb.grid_size pos = [] := by
        intro hx
        unfold explore_step at hx
        split at hx
        · exact absurd hx (by simp)
        · rename_i hc
          exact choose_next_move_ok_none hc
        · rename_i c _
          rw [Except.ok.injEq] at hx
          rcases get_direction_cases pos c with hd | hd | hd | hd | hd <;>
            (rw [hd] at hx; exact absurd hx (by decide))
      split at h
      · split at h
        · rename_i a ha
          rw [Except.ok.injEq] at h
          rcases find_path_cases kb pos a ha with hd | hd | hd | hd <;>
            (rw [hd] at h; exact absurd h (by decide))
        · exact hstay h
      · exact hstay h

open PropositionalKB InferenceEngine in
/-- Witness for `C6_decision_cascade` at concrete inputs: the glitter
branch returns `GRAB`. -/
theorem C6_decision_cascade_witness :
    determine_next_action (resetKB 3) [] (fun l => l.headD (0, 0)) (1, 1)
      ["Glitter"] 3 = .ok "GRAB" :=
  (C6_decision_cascade (resetKB 3) [] (fun l => l.headD (0, 0)) (1, 1)
    ["Glitter"] 3).1.mpr (by decide)

open PropositionalKB InferenceEngine in
/-- C2.  The decision policy is claimed never to raise, but evaluating
it on the very first step of a fresh 3×3 episode — after
`update((0,0), [])` marks the two neighbours safe — raises
`AttributeError`: the exploration tier has two safe unvisited
candidates, and `_select_best_exploration_cell` calls the method
`_calculate_exploration_score`, which is never defined on the class
(its intended body is unreachable code after the `return` of
`_select_best_backtrack_cell`). -/
theorem C2_crash :
    determine_next_action (update_knowledge_base (resetKB 3) (0, 0) []) []
      (fun l => l.headD (0, 0)) (0, 0) [] 3 = .error .attributeError := by
  rfl

/-- The knowledge base of the C7 witness: a fresh 3×3 episode where the
public setter has marked `(0,1)` as a `0.5` pit suspect, so the top
safety tier at `(1,1)` is `{(1,2), (1,0), (2,1)}`. -/
def kbC7 : PropositionalKB :=
  (resetKB 3).set_confidence (0, 1) .pit (mkRat 1 2)

open PropositionalKB InferenceEngine in
/-- Witness for `C7_loop_exclusion`: with history
`[(1,2), (2,1), (1,2), (2,1)]` both `(1,2)` and `(2,1)` are
loop-flagged; the search from `(1,1)` picks the non-flagged equally-safe
`(1,0)`, not `(1,2)`. -/
theorem C7_loop_exclusion_witness :
    choose_next_move_with_efficient_search kbC7 [(1, 2), (2, 1), (1, 2), (2, 1)]
      (fun l => l.headD (0, 0)) (1, 1) = .ok (some (1, 0)) ∧
    ((1, 0) : Pos) ≠ (1, 2) :=
  ⟨by rfl,
   C7_loop_exclusion kbC7 [(1, 2), (2, 1), (1, 2), (2, 1)]
     (fun l => l.headD (0, 0)) (1, 1) (1, 2) (1, 0)
     (fun l hl => headD_mem hl) (by decide) (by decide) (by decide) (by decide)
     (by decide) (by decide) (by decide) (1, 0) (by rfl)⟩

end WumpusWorld